import Mathlib

/-
Verification of the boids workshop spatial index (quadtree) subsystem.

Shallow embedding conventions:
- float coordinates are modelled as exact rationals; the source only compares
  coordinates and halves rectangle extents, and every claim below is about the
  outcomes of those comparisons, so exact arithmetic is the faithful reading
  of the finite-float behaviour the spec describes;
- the entity type T of the C++ templates is modelled as a structure carrying a
  numeric identity (distinct array elements have distinct addresses in the
  source, hence distinct ids) and a 2D position;
- std::vector state that member functions mutate is passed explicitly and
  returned; std::partition is refined to the stable filter-based partition
  (the source relies only on the partition guarantee, and intra-group
  order is unspecified in C++; all set-level conclusions are unaffected);
- the recursive builder is defined twice: once as a total function whose
  termination Lean checks by the measure max_depth - depth, and once with an
  explicit gas parameter returning none when gas runs out; their agreement
  for any gas exceeding max_depth - depth is the termination statement of the
  source recursion and also lets concrete trees be computed by the kernel.
-/

namespace Boids

/-- Modelled from the spec: the external raylib Vector2, a pair of float
coordinates, here exact rationals. -/
structure Vector2 where
  x : ℚ
  y : ℚ
deriving DecidableEq

/-- Modelled from the spec: the external raylib Rectangle in the
(origin, width, height) layout used by the callers (section 3 of the spec). -/
structure Rectangle where
  x : ℚ
  y : ℚ
  width : ℚ
  height : ℚ
deriving DecidableEq

/-- Modelled from the spec: raylib CheckCollisionPointRec, the scalar
point-in-rectangle primitive. Section 4.5: true iff both coordinates fall
within the closed interval of the rectangle on that axis. -/
def CheckCollisionPointRec (point : Vector2) (rec : Rectangle) : Bool :=
  decide (rec.x ≤ point.x) && decide (point.x ≤ rec.x + rec.width) &&
  decide (rec.y ≤ point.y) && decide (point.y ≤ rec.y + rec.height)

/-- Modelled from the spec: raylib CheckCollisionRecs, the scalar
rectangle-overlap primitive. Section 4.5: true iff the closed rectangles
intersect on both axes; touching edges count as overlapping. -/
def CheckCollisionRecs (rec1 rec2 : Rectangle) : Bool :=
  decide (rec1.x ≤ rec2.x + rec2.width) && decide (rec1.x + rec1.width ≥ rec2.x) &&
  decide (rec1.y ≤ rec2.y + rec2.height) && decide (rec1.y + rec1.height ≥ rec2.y)

/-- An indexed entity: the source stores non-owning pointers to caller-owned
objects exposing a position; the id stands for the object identity. -/
structure Entity where
  id : ℕ
  position : Vector2
deriving DecidableEq

/-- The contiguous subrange [start, stop) of a list, as used for the
in-place partitioned object array of the flat quadtrees. -/
def slice (l : List α) (start stop : ℕ) : List α :=
  (l.drop start).take (stop - start)

namespace LinearQuadTree

/-- Node of LinearQuadTree (LinearQuadTree.hpp lines 27-44). Child indices
use Option to model the NO_CHILD sentinel. -/
structure Node where
  boundary : Rectangle
  data_begin : ℕ
  data_count : ℕ
  tl : Option ℕ
  tr : Option ℕ
  bl : Option ℕ
  br : Option ℕ
deriving DecidableEq

/-- A node is a leaf iff all four child references are absent
(LinearQuadTree.hpp lines 33-35). -/
def Node.is_leaf (n : Node) : Bool :=
  n.tl.isNone && n.tr.isNone && n.bl.isNone && n.br.isNone

/-- Child reference by quadrant index, in the order TopLeft, TopRight,
BottomLeft, BottomRight of the Quadrant enum. -/
def Node.child (n : Node) : Fin 4 → Option ℕ
  | 0 => n.tl
  | 1 => n.tr
  | 2 => n.bl
  | 3 => n.br

/-- partition_data (LinearQuadTree.hpp lines 54-57): reorders the subrange
[start, stop) of data so that elements satisfying the predicate precede
those that do not, and returns the reordered list together with the index
of the boundary between the two groups. std::partition leaves the order
inside each group unspecified; this embedding fixes the stable order. -/
def partition_data (data : List Entity) (start stop : ℕ) (pred : Entity → Bool) :
    List Entity × ℕ :=
  let mid := slice data start stop
  let yes := mid.filter pred
  let no := mid.filter fun e => !pred e
  (data.take start ++ (yes ++ no) ++ data.drop stop, start + yes.length)

/-- build_tree (LinearQuadTree.hpp lines 63-115): recursively builds the
tree by partitioning the subrange [start, stop) of data in place, appending
nodes to the node vector, and returns the new state together with the index
of the node created for this range. The four child references of the new
node, assigned one by one in the source, are written in a single final set;
no recursive call reads or writes the parent slot, so the states coincide.
The source asserts start < stop; every call site satisfies it. -/
def build_tree (capacity max_depth : ℕ) (nodes : List Node) (data : List Entity)
    (start stop : ℕ) (bound : Rectangle) (depth : ℕ) :
    List Node × List Entity × ℕ :=
  let nodeIndex := nodes.length
  let node0 : Node := ⟨bound, start, 0, none, none, none, none⟩
  let nodes1 := nodes ++ [node0]
  if h : stop - start ≤ capacity ∨ max_depth ≤ depth then
    (nodes1.set nodeIndex { node0 with data_count := stop - start }, data, nodeIndex)
  else
    let center_x := bound.x + bound.width * (1/2)
    let center_y := bound.y + bound.height * (1/2)
    let P1 := partition_data data start stop fun p => decide (p.position.y < center_y)
    let P2 := partition_data P1.1 start P1.2 fun p => decide (p.position.x < center_x)
    let P3 := partition_data P2.1 P1.2 stop fun p => decide (p.position.x < center_x)
    let w := bound.width * (1/2)
    let hh := bound.height * (1/2)
    let r1 : List Node × List Entity × Option ℕ :=
      if start < P2.2 then
        let r := build_tree capacity max_depth nodes1 P3.1 start P2.2
          ⟨bound.x, bound.y, w, hh⟩ (depth + 1)
        (r.1, r.2.1, some r.2.2)
      else (nodes1, P3.1, none)
    let r2 : List Node × List Entity × Option ℕ :=
      if P2.2 < P1.2 then
        let r := build_tree capacity max_depth r1.1 r1.2.1 P2.2 P1.2
          ⟨bound.x + w, bound.y, w, hh⟩ (depth + 1)
        (r.1, r.2.1, some r.2.2)
      else (r1.1, r1.2.1, none)
    let r3 : List Node × List Entity × Option ℕ :=
      if P1.2 < P3.2 then
        let r := build_tree capacity max_depth r2.1 r2.2.1 P1.2 P3.2
          ⟨bound.x, bound.y + hh, w, hh⟩ (depth + 1)
        (r.1, r.2.1, some r.2.2)
      else (r2.1, r2.2.1, none)
    let r4 : List Node × List Entity × Option ℕ :=
      if P3.2 < stop then
        let r := build_tree capacity max_depth r3.1 r3.2.1 P3.2 stop
          ⟨bound.x + w, bound.y + hh, w, hh⟩ (depth + 1)
        (r.1, r.2.1, some r.2.2)
      else (r3.1, r3.2.1, none)
    (r4.1.set nodeIndex { node0 with tl := r1.2.2, tr := r2.2.2, bl := r3.2.2, br := r4.2.2 },
     r4.2.1, nodeIndex)
termination_by max_depth - depth
decreasing_by all_goals (simp_wf; omega)

/-- build_tree instrumented with a gas parameter bounding the recursion
depth: none means the recursion would have descended deeper than gas. The
agreement with build_tree for sufficient gas is the termination statement
of the source recursion and makes concrete trees kernel-computable. -/
def build_tree_gas (capacity max_depth gas : ℕ) (nodes : List Node) (data : List Entity)
    (start stop : ℕ) (bound : Rectangle) (depth : ℕ) :
    Option (List Node × List Entity × ℕ) :=
  match gas with
  | 0 => none
  | gas + 1 =>
    let nodeIndex := nodes.length
    let node0 : Node := ⟨bound, start, 0, none, none, none, none⟩
    let nodes1 := nodes ++ [node0]
    if stop - start ≤ capacity ∨ max_depth ≤ depth then
      some (nodes1.set nodeIndex { node0 with data_count := stop - start }, data, nodeIndex)
    else
      let center_x := bound.x + bound.width * (1/2)
      let center_y := bound.y + bound.height * (1/2)
      let P1 := partition_data data start stop fun p => decide (p.position.y < center_y)
      let P2 := partition_data P1.1 start P1.2 fun p => decide (p.position.x < center_x)
      let P3 := partition_data P2.1 P1.2 stop fun p => decide (p.position.x < center_x)
      let w := bound.width * (1/2)
      let hh := bound.height * (1/2)
      (if start < P2.2 then
        (build_tree_gas capacity max_depth gas nodes1 P3.1 start P2.2
          ⟨bound.x, bound.y, w, hh⟩ (depth + 1)).map fun r => (r.1, r.2.1, some r.2.2)
      else some (nodes1, P3.1, none)).bind fun r1 =>
      (if P2.2 < P1.2 then
        (build_tree_gas capacity max_depth gas r1.1 r1.2.1 P2.2 P1.2
          ⟨bound.x + w, bound.y, w, hh⟩ (depth + 1)).map fun r => (r.1, r.2.1, some r.2.2)
      else some (r1.1, r1.2.1, none)).bind fun r2 =>
      (if P1.2 < P3.2 then
        (build_tree_gas capacity max_depth gas r2.1 r2.2.1 P1.2 P3.2
          ⟨bound.x, bound.y + hh, w, hh⟩ (depth + 1)).map fun r => (r.1, r.2.1, some r.2.2)
      else some (r2.1, r2.2.1, none)).bind fun r3 =>
      (if P3.2 < stop then
        (build_tree_gas capacity max_depth gas r3.1 r3.2.1 P3.2 stop
          ⟨bound.x + w, bound.y + hh, w, hh⟩ (depth + 1)).map fun r => (r.1, r.2.1, some r.2.2)
      else some (r3.1, r3.2.1, none)).bind fun r4 =>
      some (r4.1.set nodeIndex
              { node0 with tl := r1.2.2, tr := r2.2.2, bl := r3.2.2, br := r4.2.2 },
            r4.2.1, nodeIndex)

/-- query_range_recursive (LinearQuadTree.hpp lines 117-138) over the node
and data vectors. The node index argument is Option, modelling the NO_CHILD
sentinel; an index at or past the node count returns early exactly as in the
source. The fuel argument totalizes the recursion; on every tree produced by
build_tree the child indices strictly increase, so the node count plus one
(what query_range passes) never runs out. The leaf loop pushing the members
of the claimed subrange that pass the point test is written as a filter of
that slice. -/
def query_range_recursive (nodes : List Node) (data : List Entity) (fuel : ℕ)
    (nodeIndex : Option ℕ) (range : Rectangle) (found : List Entity) : List Entity :=
  match fuel with
  | 0 => found
  | fuel + 1 =>
    match nodeIndex with
    | none => found
    | some i =>
      match nodes[i]? with
      | none => found
      | some node =>
        if !CheckCollisionRecs node.boundary range then found
        else if node.is_leaf then
          found ++ (slice data node.data_begin (node.data_begin + node.data_count)).filter
            fun obj => CheckCollisionPointRec obj.position range
        else
          let f1 := query_range_recursive nodes data fuel node.tl range found
          let f2 := query_range_recursive nodes data fuel node.tr range f1
          let f3 := query_range_recursive nodes data fuel node.bl range f2
          query_range_recursive nodes data fuel node.br range f3

/-- compute_bounds_of (LinearQuadTree.hpp lines 140-158): minimal enclosing
rectangle of the positions, padded by 1 on every side; the empty input
returns the degenerate all-zero rectangle. -/
def compute_bounds_of (objects : List Entity) : Rectangle :=
  match objects with
  | [] => ⟨0, 0, 0, 0⟩
  | o :: rest =>
    let mm := rest.foldl
      (fun (acc : ℚ × ℚ × ℚ × ℚ) obj =>
        let mnx := if obj.position.x < acc.1 then obj.position.x else acc.1
        let mxx := if obj.position.x > acc.2.1 then obj.position.x else acc.2.1
        let mny := if obj.position.y < acc.2.2.1 then obj.position.y else acc.2.2.1
        let mxy := if obj.position.y > acc.2.2.2 then obj.position.y else acc.2.2.2
        (mnx, mxx, mny, mxy))
      (o.position.x, o.position.x, o.position.y, o.position.y)
    ⟨mm.1 - 1, mm.2.2.1 - 1, (mm.2.1 - mm.1) + 2 * 1, (mm.2.2.2 - mm.2.2.1) + 2 * 1⟩

end LinearQuadTree

/-- The LinearQuadTree state (LinearQuadTree.hpp lines 46-50): linear node
storage, the contiguous object array, the root boundary, the leaf capacity
and the depth cap. -/
structure LinearQuadTree where
  nodes : List LinearQuadTree.Node
  data : List Entity
  boundary : Rectangle
  capacity : ℕ
  max_depth : ℕ
deriving DecidableEq

namespace LinearQuadTree

/-- rebuild (LinearQuadTree.hpp lines 172-185): clears the node and data
vectors, admits exactly the objects whose position passes the closed
boundary test, and builds the whole tree over them from depth 0. -/
def rebuild (t : LinearQuadTree) (objects : List Entity) : LinearQuadTree :=
  let cleared := { t with nodes := [], data := [] }
  if objects.isEmpty then cleared
  else
    let data := objects.filter fun obj => CheckCollisionPointRec obj.position t.boundary
    if data.isEmpty then cleared
    else
      let r := build_tree t.capacity t.max_depth [] data 0 data.length t.boundary 0
      { t with nodes := r.1, data := r.2.1 }

/-- rebuild_and_fit_to (LinearQuadTree.hpp lines 187-190): recomputes the
boundary from the objects, then rebuilds. The source performs no emptiness
check here and has no failure path, so the function is total. -/
def rebuild_and_fit_to (t : LinearQuadTree) (objects : List Entity) : LinearQuadTree :=
  rebuild { t with boundary := compute_bounds_of objects } objects

/-- query_range (LinearQuadTree.hpp lines 198-200): starts the recursive
query at ROOT_ID = 0. The fuel passed, one more than the node count, never
runs out on trees built by build_tree. -/
def query_range (t : LinearQuadTree) (range : Rectangle) (found : List Entity) :
    List Entity :=
  query_range_recursive t.nodes t.data (t.nodes.length + 1) (some 0) range found

/-- Reachability with depth in the flat node store: DepthFrom nodes root d j e
holds when node j is reached from node root (situated at depth d) through
stored child references, arriving at depth e. The depth of a node of a tree
is its DepthFrom relation to the root at depth 0. -/
inductive DepthFrom (nodes : List Node) (root : ℕ) (rootDepth : ℕ) : ℕ → ℕ → Prop where
  | refl : DepthFrom nodes root rootDepth root rootDepth
  | step {i d j : ℕ} {n : Node} (hi : DepthFrom nodes root rootDepth i d)
      (hn : nodes[i]? = some n) (q : Fin 4) (hq : n.child q = some j) :
      DepthFrom nodes root rootDepth j (d + 1)

/-- Geometric containment of one rectangle in another, together with
nonnegative extent of the inner one: the invariant every node rectangle of a
build started from a query-overlapping root keeps while descending into
quadrants. -/
def Inside (inner outer : Rectangle) : Prop :=
  outer.x ≤ inner.x ∧ inner.x + inner.width ≤ outer.x + outer.width ∧
  outer.y ≤ inner.y ∧ inner.y + inner.height ≤ outer.y + outer.height ∧
  0 ≤ inner.width ∧ 0 ≤ inner.height

/-- Pointwise agreement of two node stores on the index interval [lo, hi). -/
def AgreeOn (ns1 ns2 : List Node) (lo hi : ℕ) : Prop :=
  ∀ j, lo ≤ j → j < hi → ns1[j]? = ns2[j]?

/-- Everything one build_tree call guarantees about its result: the returned
index and node-store growth, the data-array frame conditions and the
permutation of the worked subrange, the reachability invariants of the
created subtree (depth bound, capacity-or-depth condition at leaves, zero
data count at internal nodes), and the exact query result over any store
agreeing with the produced one. -/
def BuildSpec (capacity max_depth : ℕ) (nodes : List Node) (data : List Entity)
    (start stop : ℕ) (bound : Rectangle) (depth : ℕ)
    (ns2 : List Node) (ds2 : List Entity) (idx : ℕ) : Prop :=
  (idx = nodes.length ∧ nodes.length < ns2.length ∧ AgreeOn ns2 nodes 0 nodes.length) ∧
  (ds2.length = data.length ∧ ds2.take start = data.take start ∧
    ds2.drop stop = data.drop stop ∧ (slice ds2 start stop).Perm (slice data start stop)) ∧
  (∀ j d, DepthFrom ns2 idx depth j d →
    idx ≤ j ∧ j < ns2.length ∧ d ≤ max_depth ∧
    ∃ n, ns2[j]? = some n ∧
      (n.is_leaf = true → (n.data_count ≤ capacity ∨ max_depth ≤ d)) ∧
      (n.is_leaf = false → n.data_count = 0)) ∧
  (∀ range : Rectangle, Inside bound range →
    (∀ e ∈ slice data start stop, CheckCollisionPointRec e.position range = true) →
    ∀ (nodesF : List Node) (dataF : List Entity) (fuel : ℕ) (found : List Entity),
      AgreeOn nodesF ns2 idx ns2.length →
      slice dataF start stop = slice ds2 start stop →
      ns2.length - idx ≤ fuel →
      query_range_recursive nodesF dataF fuel (some idx) range found
        = found ++ slice ds2 start stop)

/-- What the two-axis partitioning step of build_tree actually does to the
subrange [start, stop): the four resulting consecutive subranges hold
exactly the entities of the four quadrants under the predicates of the
source (strict less-than against the center on each axis), every entity of
the subrange lands in exactly one of them, and an entity exactly on the
center line lands in a right (respectively bottom) subrange, never a left
(respectively top) one. -/
def TieBreakSpec (data : List Entity) (start stop : ℕ) (cx cy : ℚ)
    (d3 : List Entity) (sy sxl sxr : ℕ) : Prop :=
  (slice d3 start sxl
      = ((slice data start stop).filter fun p => decide (p.position.y < cy)).filter
        (fun p => decide (p.position.x < cx)) ∧
    slice d3 sxl sy
      = ((slice data start stop).filter fun p => decide (p.position.y < cy)).filter
        (fun p => !decide (p.position.x < cx)) ∧
    slice d3 sy sxr
      = ((slice data start stop).filter fun p => !decide (p.position.y < cy)).filter
        (fun p => decide (p.position.x < cx)) ∧
    slice d3 sxr stop
      = ((slice data start stop).filter fun p => !decide (p.position.y < cy)).filter
        (fun p => !decide (p.position.x < cx))) ∧
  (slice d3 start sxl ++ slice d3 sxl sy ++ slice d3 sy sxr ++ slice d3 sxr stop).Perm
    (slice data start stop) ∧
  (∀ e ∈ slice data start stop, e.position.x = cx →
    e ∉ slice d3 start sxl ∧ e ∉ slice d3 sy sxr ∧
    (e ∈ slice d3 sxl sy ∨ e ∈ slice d3 sxr stop)) ∧
  (∀ e ∈ slice data start stop, e.position.y = cy →
    e ∉ slice d3 start sxl ∧ e ∉ slice d3 sxl sy ∧
    (e ∈ slice d3 sy sxr ∨ e ∈ slice d3 sxr stop))

/-- Everything one guarded child-quadrant build guarantees, whether or not
the quadrant subrange [a, b) is empty; ref is the stored child reference. -/
def ChildPack (capacity max_depth : ℕ) (ns : List Node) (ds : List Entity)
    (a b : ℕ) (rect : Rectangle) (depth : ℕ)
    (nsX : List Node) (dsX : List Entity) (ref : Option ℕ) : Prop :=
  ns.length ≤ nsX.length ∧
  AgreeOn nsX ns 0 ns.length ∧
  dsX.length = ds.length ∧
  dsX.take a = ds.take a ∧
  dsX.drop b = ds.drop b ∧
  (slice dsX a b).Perm (slice ds a b) ∧
  (ref = none → a = b) ∧
  (∀ rj, ref = some rj → rj = ns.length ∧ rj < nsX.length ∧
    ∀ j d, DepthFrom nsX rj (depth + 1) j d →
      rj ≤ j ∧ j < nsX.length ∧ d ≤ max_depth ∧
      ∃ n, nsX[j]? = some n ∧
        (n.is_leaf = true → (n.data_count ≤ capacity ∨ max_depth ≤ d)) ∧
        (n.is_leaf = false → n.data_count = 0)) ∧
  (∀ range : Rectangle, Inside rect range →
    (∀ e ∈ slice ds a b, CheckCollisionPointRec e.position range = true) →
    ∀ (nodesF : List Node) (dataF : List Entity) (fuel : ℕ) (found : List Entity),
      AgreeOn nodesF nsX ns.length nsX.length →
      slice dataF a b = slice dsX a b →
      nsX.length - ns.length ≤ fuel →
      query_range_recursive nodesF dataF fuel ref range found = found ++ slice dsX a b)

end LinearQuadTree

namespace SIMDQuadTree

/-- A packed vector of four float lanes, as one __m128 register, lanes
numbered 0 to 3 from the lowest. -/
structure F32x4 where
  e0 : ℚ
  e1 : ℚ
  e2 : ℚ
  e3 : ℚ
deriving DecidableEq

/-- Lane projection of a packed float vector. -/
def F32x4.lane (v : F32x4) : Fin 4 → ℚ
  | 0 => v.e0
  | 1 => v.e1
  | 2 => v.e2
  | 3 => v.e3

/-- A packed vector of four comparison-result lanes. A float compare
intrinsic fills a lane with all ones or all zeros, so one Bool per lane is
the exact content. -/
structure B32x4 where
  e0 : Bool
  e1 : Bool
  e2 : Bool
  e3 : Bool
deriving DecidableEq

/-- The _mm_shuffle_ps intrinsic with _MM_SHUFFLE(z, y, x, w): lane 0 and 1
come from the first operand at positions w and x, lane 2 and 3 from the
second operand at positions y and z. The arguments below are given in the
order w, x, y, z. -/
def shuffle_ps (a b : F32x4) (w x y z : Fin 4) : F32x4 :=
  ⟨a.lane w, a.lane x, b.lane y, b.lane z⟩

/-- The _mm_cmple_ps intrinsic: lanewise less-or-equal. -/
def cmple_ps (a b : F32x4) : B32x4 :=
  ⟨decide (a.e0 ≤ b.e0), decide (a.e1 ≤ b.e1), decide (a.e2 ≤ b.e2), decide (a.e3 ≤ b.e3)⟩

/-- The _mm_cmpge_ps intrinsic: lanewise greater-or-equal. -/
def cmpge_ps (a b : F32x4) : B32x4 :=
  ⟨decide (a.e0 ≥ b.e0), decide (a.e1 ≥ b.e1), decide (a.e2 ≥ b.e2), decide (a.e3 ≥ b.e3)⟩

/-- The _mm_and_ps intrinsic on comparison results: lanewise and. -/
def and_ps (a b : B32x4) : B32x4 :=
  ⟨a.e0 && b.e0, a.e1 && b.e1, a.e2 && b.e2, a.e3 && b.e3⟩

/-- The _mm_movemask_ps intrinsic: the four lane sign bits packed into an
integer, lane 0 in the lowest bit. A comparison-result lane is all ones
exactly when its Bool is true. -/
def movemask_ps (a : B32x4) : ℕ :=
  (cond a.e0 1 0) + 2 * (cond a.e1 1 0) + 4 * (cond a.e2 1 0) + 8 * (cond a.e3 1 0)

/-- SIMDRect (SIMDQuadTree.hpp lines 25-45): the min/max corner layout whose
four bounds occupy one packed vector in the order minX, minY, maxX, maxY. -/
structure SIMDRect where
  minX : ℚ
  minY : ℚ
  maxX : ℚ
  maxY : ℚ
deriving DecidableEq

/-- The packed register view of a SIMDRect. -/
def SIMDRect.vec (r : SIMDRect) : F32x4 :=
  ⟨r.minX, r.minY, r.maxX, r.maxY⟩

/-- Conversion from the caller (origin, width, height) rectangle layout
(SIMDQuadTree.hpp lines 38-40). -/
def SIMDRect.ofRect (r : Rectangle) : SIMDRect :=
  ⟨r.x, r.y, r.x + r.width, r.y + r.height⟩

/-- CheckCollisionRectsSIMD, vectorized path (SIMDQuadTree.hpp lines 79-97),
translated shuffle for shuffle and compare for compare. The two
_mm_extract_ps values computed at lines 92-93 of the source do not feed the
returned expression and are omitted. -/
def CheckCollisionRectsSIMD (r1 r2 : SIMDRect) : Bool :=
  let r1v := r1.vec
  let r2v := r2.vec
  let r2v_shuf := shuffle_ps r2v r2v 2 3 0 1
  let cmp1 := cmple_ps r1v (shuffle_ps r2v_shuf r2v_shuf 0 1 0 1)
  let cmp2 := cmpge_ps (shuffle_ps r1v r1v 2 3 2 3) r2v_shuf
  let result := and_ps cmp1 cmp2
  movemask_ps result == 15

/-- CheckCollisionRectsSIMD, scalar fallback path (SIMDQuadTree.hpp line
100): the closed-interval overlap test on both axes. -/
def CheckCollisionRectsScalar (r1 r2 : SIMDRect) : Bool :=
  decide (r1.minX ≤ r2.maxX) && decide (r1.maxX ≥ r2.minX) &&
  decide (r1.minY ≤ r2.maxY) && decide (r1.maxY ≥ r2.minY)

/-- CheckCollisionRectsSIMD, vectorized path of the second variant of the
class (src/unnamed/part_003 lines 74-98). -/
def CheckCollisionRectsSIMDv2 (r1 r2 : SIMDRect) : Bool :=
  let r1v := r1.vec
  let r2v := r2.vec
  let r2_min := shuffle_ps r2v r2v 0 1 0 1
  let r2_max := shuffle_ps r2v r2v 2 3 2 3
  let r1_min := shuffle_ps r1v r1v 0 1 0 1
  let r1_max := shuffle_ps r1v r1v 2 3 2 3
  let cmp_min := cmple_ps r1_min r2_max
  let cmp_max := cmpge_ps r1_max r2_min
  let result := and_ps cmp_min cmp_max
  movemask_ps result == 15

/-- CheckCollisionPointRectSIMD (SIMDQuadTree.hpp lines 105-108): scalar
closed-interval point containment against the min/max layout. -/
def CheckCollisionPointRectSIMD (point : Vector2) (rect : SIMDRect) : Bool :=
  decide (point.x ≥ rect.minX) && decide (point.x ≤ rect.maxX) &&
  decide (point.y ≥ rect.minY) && decide (point.y ≤ rect.maxY)

/-- The node-reservation estimate of SIMDQuadTree rebuild (SIMDQuadTree.hpp
line 236): data.size() / (capacity / 2) in C++ unsigned arithmetic. A zero
divisor is undefined behaviour in the source, modelled as none. -/
def rebuild_reserve_estimate (dataSize capacity : ℕ) : Option ℕ :=
  if capacity / 2 = 0 then none else some (dataSize / (capacity / 2))

end SIMDQuadTree

/-- The pointer-owned recursive quadtree (QuadTree.h lines 24-135). Children
are owned unique pointers, all four present exactly when subdivided is set;
they are created and destroyed together, so the model stores them as one
optional quadruple and subdivided is their presence. -/
inductive QuadTree where
  | mk (boundary : Rectangle) (objects : List Entity)
       (children : Option (QuadTree × QuadTree × QuadTree × QuadTree)) : QuadTree

namespace QuadTree

/-- The boundary of a pointer-owned quadtree node. -/
def boundary : QuadTree → Rectangle
  | mk b _ _ => b

/-- The objects stored directly at a pointer-owned quadtree node. -/
def objects : QuadTree → List Entity
  | mk _ o _ => o

/-- query_range (QuadTree.h lines 95-110): prune on boundary overlap, push
the matching objects of this node, then descend into all four children when
subdivided. -/
def query_range : QuadTree → Rectangle → List Entity → List Entity
  | mk b objs ch, range, found =>
    if !CheckCollisionRecs b range then found
    else
      let found := found ++ objs.filter fun obj => CheckCollisionPointRec obj.position range
      match ch with
      | none => found
      | some (nw, ne, sw, se) =>
        se.query_range range (sw.query_range range (ne.query_range range
          (nw.query_range range found)))

end QuadTree

/-! Slice toolkit. -/

theorem slice_self (l : List α) (a : ℕ) : slice l a a = [] := by
  simp [slice]

theorem slice_whole (l : List α) : slice l 0 l.length = l := by
  simp [slice]

theorem length_slice (l : List α) (a b : ℕ) :
    (slice l a b).length = min (b - a) (l.length - a) := by
  simp [slice]

theorem slice_subset (l : List α) (a b : ℕ) : slice l a b ⊆ l :=
  fun _ hx => List.drop_subset a l (List.take_subset _ _ hx)

theorem set_append_length (ns : List α) (a b : α) :
    (ns ++ [a]).set ns.length b = ns ++ [b] := by
  rw [List.set_append_right _ _ (le_refl _)]
  simp

theorem getElem?_append_length (ns : List α) (b : α) : (ns ++ [b])[ns.length]? = some b := by
  rw [List.getElem?_append_right (le_refl _)]
  simp

theorem slice_append_consec {l : List α} {a b c : ℕ} (hab : a ≤ b) (hbc : b ≤ c) :
    slice l a b ++ slice l b c = slice l a c := by
  have hd : l.drop b = (l.drop a).drop (b - a) := by
    rw [List.drop_drop]
    congr 1
    omega
  rw [slice, slice, slice, hd, ← List.take_add]
  congr 1
  omega

theorem slice_middle (A B C : List α) :
    slice (A ++ (B ++ C)) A.length (A.length + B.length) = B := by
  rw [slice, List.drop_left, Nat.add_sub_cancel_left, List.take_left]

theorem take_eq_of_take_eq {l1 l2 : List α} {m k : ℕ}
    (h : l1.take m = l2.take m) (hk : k ≤ m) : l1.take k = l2.take k := by
  have h1 : (l1.take m).take k = (l2.take m).take k := by rw [h]
  rwa [List.take_take, List.take_take, Nat.min_eq_left hk] at h1

theorem drop_eq_of_drop_eq {l1 l2 : List α} {m k : ℕ}
    (h : l1.drop m = l2.drop m) (hk : m ≤ k) : l1.drop k = l2.drop k := by
  have h1 : (l1.drop m).drop (k - m) = (l2.drop m).drop (k - m) := by rw [h]
  rw [List.drop_drop, List.drop_drop] at h1
  have : m + (k - m) = k := by omega
  rwa [this] at h1

theorem slice_eq_of_take_eq {l1 l2 : List α} {m a b : ℕ}
    (h : l1.take m = l2.take m) (hb : b ≤ m) : slice l1 a b = slice l2 a b := by
  have key : ∀ l : List α, ((l.take m).drop a).take (b - a) = slice l a b := by
    intro l
    rw [List.drop_take, List.take_take, Nat.min_eq_left (show b - a ≤ m - a by omega)]
    rfl
  rw [← key l1, ← key l2, h]

theorem slice_eq_of_drop_eq {l1 l2 : List α} {m a b : ℕ}
    (h : l1.drop m = l2.drop m) (ha : m ≤ a) : slice l1 a b = slice l2 a b := by
  have h1 : l1.drop a = l2.drop a := drop_eq_of_drop_eq h ha
  rw [slice, slice, h1]

theorem slice_eq_of_slice_eq {l1 l2 : List α} {s t a b : ℕ}
    (h : slice l1 s t = slice l2 s t) (hsa : s ≤ a) (hbt : b ≤ t) :
    slice l1 a b = slice l2 a b := by
  have key : ∀ l : List α, slice l a b = ((slice l s t).drop (a - s)).take (b - a) := by
    intro l
    rw [slice, slice, List.drop_take, List.drop_drop]
    have hs : s + (a - s) = a := by omega
    rw [hs, List.take_take, Nat.min_eq_left (by omega)]
  rw [key l1, key l2, h]

/-! Node-store agreement lemmas. -/

namespace LinearQuadTree

theorem agreeOn_refl (ns : List Node) (lo hi : ℕ) : AgreeOn ns ns lo hi :=
  fun _ _ _ => rfl

theorem agreeOn_trans {a b c : List Node} {lo hi : ℕ}
    (h1 : AgreeOn a b lo hi) (h2 : AgreeOn b c lo hi) : AgreeOn a c lo hi :=
  fun j hj1 hj2 => (h1 j hj1 hj2).trans (h2 j hj1 hj2)

theorem agreeOn_mono {a b : List Node} {lo hi lo2 hi2 : ℕ}
    (h : AgreeOn a b lo hi) (h1 : lo ≤ lo2) (h2 : hi2 ≤ hi) : AgreeOn a b lo2 hi2 :=
  fun j hj1 hj2 => h j (le_trans h1 hj1) (lt_of_lt_of_le hj2 h2)

theorem agreeOn_append (ns m : List Node) : AgreeOn (ns ++ m) ns 0 ns.length :=
  fun _ _ hj2 => List.getElem?_append_left hj2

theorem agreeOn_set_outside {j lo hi : ℕ} (ns : List Node) (x : Node)
    (h : j < lo ∨ hi ≤ j) : AgreeOn (ns.set j x) ns lo hi :=
  fun i hi1 hi2 => List.getElem?_set_ne (by omega)

theorem agreeOn_getElem {a b : List Node} {lo hi j : ℕ}
    (h : AgreeOn a b lo hi) (h1 : lo ≤ j) (h2 : j < hi) : a[j]? = b[j]? :=
  h j h1 h2

/-! Geometry lemmas for the containment invariant. -/

theorem inside_self {r : Rectangle} (hw : 0 ≤ r.width) (hh : 0 ≤ r.height) :
    Inside r r := by
  refine ⟨le_refl _, ?_, le_refl _, ?_, hw, hh⟩ <;> linarith

theorem checkCollisionRecs_of_inside {inner outer : Rectangle}
    (h : Inside inner outer) : CheckCollisionRecs inner outer = true := by
  obtain ⟨h1, h2, h3, h4, h5, h6⟩ := h
  simp only [CheckCollisionRecs, Bool.and_eq_true, decide_eq_true_eq, ge_iff_le]
  refine ⟨⟨⟨?_, ?_⟩, ?_⟩, ?_⟩ <;> linarith

theorem inside_tl {r outer : Rectangle} (h : Inside r outer) :
    Inside ⟨r.x, r.y, r.width * (1/2), r.height * (1/2)⟩ outer := by
  obtain ⟨h1, h2, h3, h4, h5, h6⟩ := h
  refine ⟨by simpa using h1, ?_, by simpa using h3, ?_, ?_, ?_⟩ <;> simp <;> linarith

theorem inside_tr {r outer : Rectangle} (h : Inside r outer) :
    Inside ⟨r.x + r.width * (1/2), r.y, r.width * (1/2), r.height * (1/2)⟩ outer := by
  obtain ⟨h1, h2, h3, h4, h5, h6⟩ := h
  refine ⟨?_, ?_, by simpa using h3, ?_, ?_, ?_⟩ <;> simp <;> linarith

theorem inside_bl {r outer : Rectangle} (h : Inside r outer) :
    Inside ⟨r.x, r.y + r.height * (1/2), r.width * (1/2), r.height * (1/2)⟩ outer := by
  obtain ⟨h1, h2, h3, h4, h5, h6⟩ := h
  refine ⟨by simpa using h1, ?_, ?_, ?_, ?_, ?_⟩ <;> simp <;> linarith

theorem inside_br {r outer : Rectangle} (h : Inside r outer) :
    Inside ⟨r.x + r.width * (1/2), r.y + r.height * (1/2),
            r.width * (1/2), r.height * (1/2)⟩ outer := by
  obtain ⟨h1, h2, h3, h4, h5, h6⟩ := h
  refine ⟨?_, ?_, ?_, ?_, ?_, ?_⟩ <;> simp <;> linarith

/-! Partition lemmas. -/

theorem partition_data_spec (data : List Entity) (start stop : ℕ) (pred : Entity → Bool)
    (h1 : start ≤ stop) (h2 : stop ≤ data.length) :
    (partition_data data start stop pred).1.length = data.length ∧
    start ≤ (partition_data data start stop pred).2 ∧
    (partition_data data start stop pred).2 ≤ stop ∧
    (partition_data data start stop pred).1.take start = data.take start ∧
    (partition_data data start stop pred).1.drop stop = data.drop stop ∧
    slice (partition_data data start stop pred).1 start (partition_data data start stop pred).2
      = (slice data start stop).filter pred ∧
    slice (partition_data data start stop pred).1 (partition_data data start stop pred).2 stop
      = (slice data start stop).filter (fun e => !pred e) := by
  set mid := slice data start stop with hmid
  set yes := mid.filter pred with hyes
  set no := mid.filter (fun e => !pred e) with hno
  have hmidlen : mid.length = stop - start := by
    rw [hmid, length_slice]
    omega
  have hyn : yes.length + no.length = stop - start := by
    rw [hyes, hno]
    have := (mid.filter_append_perm pred).length_eq
    simp only [List.length_append] at this
    omega
  have htakelen : (data.take start).length = start := by
    simp
    omega
  have hdroplen : (data.drop stop).length = data.length - stop := by simp
  have hP1 : (partition_data data start stop pred).1
      = data.take start ++ (yes ++ no) ++ data.drop stop := rfl
  have hP2 : (partition_data data start stop pred).2 = start + yes.length := rfl
  refine ⟨?_, ?_, ?_, ?_, ?_, ?_, ?_⟩
  · rw [hP1]
    simp only [List.length_append]
    omega
  · rw [hP2]
    omega
  · rw [hP2]
    omega
  · rw [hP1, List.append_assoc, List.take_left' htakelen]
  · rw [hP1]
    have hlen : (data.take start ++ (yes ++ no)).length = stop := by
      simp only [List.length_append]
      omega
    rw [List.drop_left' hlen]
  · rw [hP2]
    have e1 : (partition_data data start stop pred).1
        = data.take start ++ (yes ++ (no ++ data.drop stop)) := by
      rw [hP1]
      simp [List.append_assoc]
    have h := slice_middle (data.take start) yes (no ++ data.drop stop)
    rw [htakelen] at h
    rw [e1]
    exact h
  · rw [hP2]
    have e2 : (partition_data data start stop pred).1
        = (data.take start ++ yes) ++ (no ++ data.drop stop) := by
      rw [hP1]
      simp [List.append_assoc]
    have h := slice_middle (data.take start ++ yes) no (data.drop stop)
    have hlen2 : (data.take start ++ yes).length = start + yes.length := by
      simp only [List.length_append, htakelen]
    rw [hlen2] at h
    have hstop : stop = start + yes.length + no.length := by omega
    nth_rewrite 2 [hstop]
    rw [e2]
    exact h

theorem partition_data_slice_perm (data : List Entity) (start stop : ℕ)
    (pred : Entity → Bool) (h1 : start ≤ stop) (h2 : stop ≤ data.length) :
    (slice (partition_data data start stop pred).1 start stop).Perm
      (slice data start stop) := by
  obtain ⟨-, hs1, hs2, -, -, hyes, hno⟩ := partition_data_spec data start stop pred h1 h2
  rw [← slice_append_consec hs1 hs2, hyes, hno]
  exact (slice data start stop).filter_append_perm pred

/-! Reachability lemmas. -/

theorem depthFrom_nil {root rd j d : ℕ} (h : DepthFrom [] root rd j d) :
    j = root ∧ d = rd := by
  induction h with
  | refl => exact ⟨rfl, rfl⟩
  | step hi hn q hq ih => simp at hn

theorem depthFrom_of_agree {ns1 ns2 : List Node} {root rd lo hi : ℕ}
    (hagree : AgreeOn ns1 ns2 lo hi)
    (hclosed : ∀ j d, DepthFrom ns2 root rd j d → lo ≤ j ∧ j < hi) :
    ∀ {j d}, DepthFrom ns2 root rd j d → DepthFrom ns1 root rd j d := by
  intro j d h
  induction h with
  | refl => exact DepthFrom.refl
  | step hi2 hn q hq ih =>
    have hb := hclosed _ _ hi2
    exact DepthFrom.step ih ((hagree _ hb.1 hb.2).trans hn) q hq

/-! Query engine frame and soundness lemmas. -/

theorem query_range_recursive_frame (nodes : List Node) (data : List Entity) :
    ∀ (fuel : ℕ) (ni : Option ℕ) (range : Rectangle) (found1 found2 : List Entity),
    query_range_recursive nodes data fuel ni range (found1 ++ found2)
      = found1 ++ query_range_recursive nodes data fuel ni range found2 := by
  intro fuel
  induction fuel with
  | zero =>
    intro ni range found1 found2
    rfl
  | succ fuel ih =>
    intro ni range found1 found2
    match ni with
    | none => rfl
    | some i =>
      simp only [query_range_recursive]
      match nodes[i]? with
      | none => rfl
      | some node =>
        by_cases hc : CheckCollisionRecs node.boundary range
        · simp only [hc, Bool.not_true, Bool.false_eq_true, if_false]
          by_cases hl : node.is_leaf
          · simp only [hl, if_true, List.append_assoc]
          · simp only [hl, Bool.false_eq_true, if_false, ih]
        · simp only [Bool.not_eq_true] at hc
          simp only [hc, Bool.not_false, if_true]

theorem query_range_recursive_sound (nodes : List Node) (data : List Entity) :
    ∀ (fuel : ℕ) (ni : Option ℕ) (range : Rectangle) (found : List Entity) (e : Entity),
    e ∈ query_range_recursive nodes data fuel ni range found →
    e ∈ found ∨ e ∈ data := by
  intro fuel
  induction fuel with
  | zero =>
    intro ni range found e he
    exact Or.inl he
  | succ fuel ih =>
    intro ni range found e he
    match ni with
    | none => exact Or.inl he
    | some i =>
      simp only [query_range_recursive] at he
      match hnode : nodes[i]? with
      | none =>
        rw [hnode] at he
        exact Or.inl he
      | some node =>
        rw [hnode] at he
        by_cases hc : CheckCollisionRecs node.boundary range
        · simp only [hc, Bool.not_true, Bool.false_eq_true, if_false] at he
          by_cases hl : node.is_leaf
          · simp only [hl, if_true] at he
            rcases List.mem_append.1 he with h | h
            · exact Or.inl h
            · exact Or.inr (slice_subset data _ _ (List.mem_filter.1 h).1)
          · simp only [hl, Bool.false_eq_true, if_false] at he
            rcases ih _ _ _ _ he with h | h
            · rcases ih _ _ _ _ h with h2 | h2
              · rcases ih _ _ _ _ h2 with h3 | h3
                · rcases ih _ _ _ _ h3 with h4 | h4
                  · exact Or.inl h4
                  · exact Or.inr h4
                · exact Or.inr h3
              · exact Or.inr h2
            · exact Or.inr h
        · simp only [Bool.not_eq_true] at hc
          simp only [hc, Bool.not_false, if_true] at he
          exact Or.inl he

/-! Builder termination: sufficient gas makes the instrumented builder agree
with the total one. -/

theorem opt_bind_ite {c : Prop} [Decidable c] (x y : Option α) (f : α → Option β) :
    (if c then x else y).bind f = if c then x.bind f else y.bind f := by
  split <;> rfl

theorem build_tree_gas_sound :
    ∀ (gas capacity max_depth : ℕ) (nodes : List Node) (data : List Entity)
      (start stop : ℕ) (bound : Rectangle) (depth : ℕ),
      max_depth - depth < gas →
      build_tree_gas capacity max_depth gas nodes data start stop bound depth
        = some (build_tree capacity max_depth nodes data start stop bound depth) := by
  intro gas
  induction gas with
  | zero =>
    intro _ _ _ _ _ _ _ _ h
    omega
  | succ gas ih =>
    intro capacity max_depth nodes data start stop bound depth h
    rw [build_tree_gas, build_tree.eq_def]
    by_cases hcond : stop - start ≤ capacity ∨ max_depth ≤ depth
    · rw [if_pos hcond, dif_pos hcond]
    · rw [if_neg hcond, dif_neg hcond]
      have hd : depth < max_depth := by omega
      have ih2 : ∀ (nodes : List Node) (data : List Entity) (start stop : ℕ)
          (bound : Rectangle),
          build_tree_gas capacity max_depth gas nodes data start stop bound (depth + 1)
            = some (build_tree capacity max_depth nodes data start stop bound (depth + 1)) :=
        fun nodes data start stop bound => ih capacity max_depth nodes data start stop bound
          (depth + 1) (by omega)
      simp only [ih2, Option.map_some']
      iterate 8
        all_goals try (split <;> simp only [Option.some_bind] <;> try omega)

/-! The inductive core: everything one build call guarantees. The statement
is packaged in BuildSpec and ChildPack; the next lemma settles one guarded
child-quadrant build from the induction hypothesis of the main lemma. -/

theorem build_child_pack (capacity max_depth gas depth : ℕ)
    (IH : ∀ (ns : List Node) (ds : List Entity) (a b : ℕ) (rect : Rectangle)
      (nsX : List Node) (dsX : List Entity) (ix : ℕ),
      build_tree_gas capacity max_depth gas ns ds a b rect (depth + 1)
        = some (nsX, dsX, ix) → a < b → b ≤ ds.length → depth + 1 ≤ max_depth →
      BuildSpec capacity max_depth ns ds a b rect (depth + 1) nsX dsX ix)
    (ns : List Node) (ds : List Entity) (a b : ℕ) (rect : Rectangle)
    (nsX : List Node) (dsX : List Entity) (ref : Option ℕ)
    (hc : (if a < b then
        (build_tree_gas capacity max_depth gas ns ds a b rect (depth + 1)).map
          (fun r => (r.1, r.2.1, some r.2.2))
      else some (ns, ds, none)) = some (nsX, dsX, ref))
    (hab : a ≤ b) (hbl : b ≤ ds.length) (hdm : depth + 1 ≤ max_depth) :
    ChildPack capacity max_depth ns ds a b rect depth nsX dsX ref := by
  by_cases hlt : a < b
  · rw [if_pos hlt] at hc
    cases hbuild : build_tree_gas capacity max_depth gas ns ds a b rect (depth + 1) with
    | none =>
      rw [hbuild] at hc
      simp at hc
    | some r =>
      rw [hbuild] at hc
      simp only [Option.map_some', Option.some.injEq, Prod.mk.injEq] at hc
      obtain ⟨h1, h2, h3⟩ := hc
      subst h1
      subst h2
      subst h3
      obtain ⟨⟨hidx, hlen, hagree⟩, ⟨hdlen, htake, hdrop, hperm⟩, hreach, hquery⟩ :=
        IH ns ds a b rect r.1 r.2.1 r.2.2 hbuild hlt hbl hdm
      refine ⟨le_of_lt hlen, hagree, hdlen, htake, hdrop, hperm, ?_, ?_, ?_⟩
      · intro hnone
        simp at hnone
      · intro rj hrj
        injection hrj with hrj
        subst hrj
        exact ⟨hidx, by rw [hidx]; exact hlen, hreach⟩
      · intro range hins hpass nodesF dataF fuel found hagF hslF hflF
        exact hquery range hins hpass nodesF dataF fuel found
          (by rw [hidx]; exact hagF) hslF (by rw [hidx]; exact hflF)
  · rw [if_neg hlt] at hc
    simp only [Option.some.injEq, Prod.mk.injEq] at hc
    obtain ⟨h1, h2, h3⟩ := hc
    subst h1
    subst h2
    subst h3
    have hab2 : a = b := by omega
    subst hab2
    refine ⟨le_refl _, agreeOn_refl _ _ _, rfl, rfl, rfl, List.Perm.refl _,
      fun _ => rfl, ?_, ?_⟩
    · intro rj h
      simp at h
    · intro range hins hpass nodesF dataF fuel found hagF hslF hflF
      cases fuel <;> simp [query_range_recursive, slice_self]

theorem build_gas_spec :
    ∀ (gas capacity max_depth : ℕ) (nodes : List Node) (data : List Entity)
      (start stop : ℕ) (bound : Rectangle) (depth : ℕ)
      (ns2 : List Node) (ds2 : List Entity) (idx : ℕ),
      build_tree_gas capacity max_depth gas nodes data start stop bound depth
        = some (ns2, ds2, idx) →
      start < stop → stop ≤ data.length → depth ≤ max_depth →
      BuildSpec capacity max_depth nodes data start stop bound depth ns2 ds2 idx := by
  intro gas
  induction gas with
  | zero =>
    intro _ _ _ _ _ _ _ _ _ _ _ hB _ _ _
    simp [build_tree_gas] at hB
  | succ gas ih =>
    intro capacity max_depth nodes data start stop bound depth ns2 ds2 idx hB hss hsl hdm
    rw [build_tree_gas] at hB
    by_cases hcond : stop - start ≤ capacity ∨ max_depth ≤ depth
    · -- the range becomes a leaf
      rw [if_pos hcond, set_append_length] at hB
      simp only [Option.some.injEq, Prod.mk.injEq] at hB
      obtain ⟨h1, h2, h3⟩ := hB
      subst h1
      subst h2
      subst h3
      set leafN : Node := ⟨bound, start, stop - start, none, none, none, none⟩ with hleafN
      have hget : (nodes ++ [leafN])[nodes.length]? = some leafN := getElem?_append_length _ _
      have honly : ∀ j d, DepthFrom (nodes ++ [leafN]) nodes.length depth j d →
          j = nodes.length ∧ d = depth := by
        intro j d h
        induction h with
        | refl => exact ⟨rfl, rfl⟩
        | step hi hn q hq ihh =>
          obtain ⟨rfl, rfl⟩ := ihh
          rw [hget] at hn
          injection hn with hn
          subst hn
          fin_cases q <;> simp [Node.child, hleafN] at hq
      refine ⟨⟨rfl, by simp, agreeOn_append _ _⟩,
        ⟨rfl, rfl, rfl, List.Perm.refl _⟩, ?_, ?_⟩
      · intro j d h
        obtain ⟨rfl, rfl⟩ := honly j d h
        refine ⟨le_refl _, by simp, hdm, leafN, hget, fun _ => hcond, ?_⟩
        intro hfalse
        simp [Node.is_leaf, hleafN] at hfalse
      · intro range hins hpass nodesF dataF fuel found hagF hslF hflF
        have hlen2 : (nodes ++ [leafN]).length = nodes.length + 1 := by simp
        rw [hlen2] at hflF
        cases fuel with
        | zero => omega
        | succ f =>
          have hgF : nodesF[nodes.length]? = some leafN :=
            (hagF nodes.length (le_refl _) (by simp)).trans hget
          have hleaf : leafN.is_leaf = true := by simp [Node.is_leaf, hleafN]
          have hcc : CheckCollisionRecs leafN.boundary range = true := by
            show CheckCollisionRecs bound range = true
            exact checkCollisionRecs_of_inside hins
          simp only [query_range_recursive, hgF, hcc, Bool.not_true, Bool.false_eq_true,
            if_false, hleaf, if_true, hleafN]
          have harith : start + (stop - start) = stop := by omega
          rw [harith, hslF, List.filter_eq_self.2 fun a ha => hpass a ha]
    · -- the range is subdivided into four quadrants
      rw [if_neg hcond] at hB
      have hdlt : depth < max_depth := by omega
      rw [Option.bind_eq_some] at hB
      obtain ⟨⟨nsA, dsA, ref1⟩, hc1, hB⟩ := hB
      rw [Option.bind_eq_some] at hB
      obtain ⟨⟨nsB, dsB, ref2⟩, hc2, hB⟩ := hB
      rw [Option.bind_eq_some] at hB
      obtain ⟨⟨nsC, dsC, ref3⟩, hc3, hB⟩ := hB
      rw [Option.bind_eq_some] at hB
      obtain ⟨⟨nsD, dsD, ref4⟩, hc4, hB⟩ := hB
      simp only [Option.some.injEq, Prod.mk.injEq] at hB
      obtain ⟨h1, h2, h3⟩ := hB
      subst h1
      subst h2
      subst h3
      set ptop : Entity → Bool :=
        fun p => decide (p.position.y < bound.y + bound.height * (1/2)) with hptop
      set pleft : Entity → Bool :=
        fun p => decide (p.position.x < bound.x + bound.width * (1/2)) with hpleft
      set P1 := partition_data data start stop ptop with hP1d
      set P2 := partition_data P1.1 start P1.2 pleft with hP2d
      set P3 := partition_data P2.1 P1.2 stop pleft with hP3d
      set node0 : Node := ⟨bound, start, 0, none, none, none, none⟩ with hnode0
      have spec1 := partition_data_spec data start stop ptop (le_of_lt hss) hsl
      rw [← hP1d] at spec1
      obtain ⟨hlen1, hs1a, hs1b, htk1, hdr1, hyes1, hno1⟩ := spec1
      have spec2 := partition_data_spec P1.1 start P1.2 pleft hs1a
        (by rw [hlen1]; exact hs1b.trans hsl)
      rw [← hP2d] at spec2
      obtain ⟨hlen2, hs2a, hs2b, htk2, hdr2, hyes2, hno2⟩ := spec2
      have spec3 := partition_data_spec P2.1 P1.2 stop pleft hs1b
        (by rw [hlen2, hlen1]; exact hsl)
      rw [← hP3d] at spec3
      obtain ⟨hlen3, hs3a, hs3b, htk3, hdr3, hyes3, hno3⟩ := spec3
      have IH2 : ∀ (ns : List Node) (ds : List Entity) (a b : ℕ) (rect : Rectangle)
          (nsX : List Node) (dsX : List Entity) (ix : ℕ),
          build_tree_gas capacity max_depth gas ns ds a b rect (depth + 1)
            = some (nsX, dsX, ix) → a < b → b ≤ ds.length → depth + 1 ≤ max_depth →
          BuildSpec capacity max_depth ns ds a b rect (depth + 1) nsX dsX ix :=
        fun ns ds a b rect nsX dsX ix hb hlt hbl hdm2 =>
          ih capacity max_depth ns ds a b rect (depth + 1) nsX dsX ix hb hlt hbl hdm2
      have pk1 := build_child_pack capacity max_depth gas depth IH2
        (nodes ++ [node0]) P3.1 start P2.2
        ⟨bound.x, bound.y, bound.width * (1/2), bound.height * (1/2)⟩
        nsA dsA ref1 hc1 hs2a
        (by rw [hlen3, hlen2, hlen1]; exact (hs2b.trans hs1b).trans hsl) hdlt
      obtain ⟨lenA, agA, dlenA, tkA, drA, pmA, noneA, someA, quA⟩ := pk1
      have pk2 := build_child_pack capacity max_depth gas depth IH2
        nsA dsA P2.2 P1.2
        ⟨bound.x + bound.width * (1/2), bound.y, bound.width * (1/2), bound.height * (1/2)⟩
        nsB dsB ref2 hc2 hs2b
        (by rw [dlenA, hlen3, hlen2, hlen1]; exact hs1b.trans hsl) hdlt
      obtain ⟨lenB, agB, dlenB, tkB, drB, pmB, noneB, someB, quB⟩ := pk2
      have pk3 := build_child_pack capacity max_depth gas depth IH2
        nsB dsB P1.2 P3.2
        ⟨bound.x, bound.y + bound.height * (1/2), bound.width * (1/2), bound.height * (1/2)⟩
        nsC dsC ref3 hc3 hs3a
        (by rw [dlenB, dlenA, hlen3, hlen2, hlen1]; exact (hs3b.trans hsl)) hdlt
      obtain ⟨lenC, agC, dlenC, tkC, drC, pmC, noneC, someC, quC⟩ := pk3
      have pk4 := build_child_pack capacity max_depth gas depth IH2
        nsC dsC P3.2 stop
        ⟨bound.x + bound.width * (1/2), bound.y + bound.height * (1/2),
          bound.width * (1/2), bound.height * (1/2)⟩
        nsD dsD ref4 hc4 hs3b
        (by rw [dlenC, dlenB, dlenA, hlen3, hlen2, hlen1]; exact hsl) hdlt
      obtain ⟨lenD, agD, dlenD, tkD, drD, pmD, noneD, someD, quD⟩ := pk4
      show BuildSpec capacity max_depth nodes data start stop bound depth
        (nsD.set nodes.length ⟨bound, start, 0, ref1, ref2, ref3, ref4⟩) dsD nodes.length
      set parentN : Node := ⟨bound, start, 0, ref1, ref2, ref3, ref4⟩ with hparentN
      set ns2 := nsD.set nodes.length parentN with hns2
      have L0 : nodes.length + 1 ≤ nsA.length := by simpa using lenA
      have hlset : ns2.length = nsD.length := by rw [hns2]; simp
      have hidxlt : nodes.length < nsD.length := by omega
      have hgetP : ns2[nodes.length]? = some parentN := by
        rw [hns2]
        exact List.getElem?_set_eq_of_lt _ hidxlt
      have D1 : dsD.length = data.length := by
        rw [dlenD, dlenC, dlenB, dlenA, hlen3, hlen2, hlen1]
      have agSD : AgreeOn ns2 nsD (nodes.length + 1) nsD.length := by
        rw [hns2]
        exact agreeOn_set_outside _ _ (Or.inl (by omega))
      have agA2 : AgreeOn ns2 nsA (nodes.length + 1) nsA.length := by
        refine agreeOn_trans (agreeOn_mono agSD (le_refl _) (by omega)) ?_
        refine agreeOn_trans (agreeOn_mono agD (by omega) (by omega)) ?_
        refine agreeOn_trans (agreeOn_mono agC (by omega) (by omega)) ?_
        exact agreeOn_mono agB (by omega) (le_refl _)
      have agB2 : AgreeOn ns2 nsB nsA.length nsB.length := by
        refine agreeOn_trans (agreeOn_mono agSD (by omega) (by omega)) ?_
        refine agreeOn_trans (agreeOn_mono agD (by omega) (by omega)) ?_
        exact agreeOn_mono agC (by omega) (le_refl _)
      have agC2 : AgreeOn ns2 nsC nsB.length nsC.length := by
        refine agreeOn_trans (agreeOn_mono agSD (by omega) (by omega)) ?_
        exact agreeOn_mono agD (by omega) (le_refl _)
      have agD2 : AgreeOn ns2 nsD nsC.length nsD.length :=
        agreeOn_mono agSD (by omega) (le_refl _)
      have hleaf_false : parentN.is_leaf = false := by
        by_contra hx
        rw [Bool.not_eq_false] at hx
        simp only [Node.is_leaf, hparentN, Bool.and_eq_true, Option.isNone_iff_eq_none] at hx
        obtain ⟨⟨⟨e1, e2⟩, e3⟩, e4⟩ := hx
        have q1 := noneA e1
        have q2 := noneB e2
        have q3 := noneC e3
        have q4 := noneD e4
        omega
      have sliceD1 : slice dsD start P2.2 = slice dsA start P2.2 := by
        calc slice dsD start P2.2
            = slice dsC start P2.2 := slice_eq_of_take_eq tkD (hs2b.trans hs3a)
          _ = slice dsB start P2.2 := slice_eq_of_take_eq tkC hs2b
          _ = slice dsA start P2.2 := slice_eq_of_take_eq tkB (le_refl _)
      have sliceD2 : slice dsD P2.2 P1.2 = slice dsB P2.2 P1.2 := by
        calc slice dsD P2.2 P1.2
            = slice dsC P2.2 P1.2 := slice_eq_of_take_eq tkD hs3a
          _ = slice dsB P2.2 P1.2 := slice_eq_of_take_eq tkC (le_refl _)
      have sliceD3 : slice dsD P1.2 P3.2 = slice dsC P1.2 P3.2 :=
        slice_eq_of_take_eq tkD (le_refl _)
      have sliceA2 : slice dsA P2.2 P1.2 = slice P3.1 P2.2 P1.2 :=
        slice_eq_of_drop_eq drA (le_refl _)
      have sliceB3 : slice dsB P1.2 P3.2 = slice P3.1 P1.2 P3.2 := by
        calc slice dsB P1.2 P3.2
            = slice dsA P1.2 P3.2 := slice_eq_of_drop_eq drB (le_refl _)
          _ = slice P3.1 P1.2 P3.2 := slice_eq_of_drop_eq drA hs2b
      have sliceC4 : slice dsC P3.2 stop = slice P3.1 P3.2 stop := by
        calc slice dsC P3.2 stop
            = slice dsB P3.2 stop := slice_eq_of_drop_eq drC (le_refl _)
          _ = slice dsA P3.2 stop := slice_eq_of_drop_eq drB hs3a
          _ = slice P3.1 P3.2 stop := slice_eq_of_drop_eq drA (hs2b.trans hs3a)
      have pm1 : (slice dsD start P2.2).Perm (slice P3.1 start P2.2) := by
        rw [sliceD1]
        exact pmA
      have pm2 : (slice dsD P2.2 P1.2).Perm (slice P3.1 P2.2 P1.2) := by
        rw [sliceD2, ← sliceA2]
        exact pmB
      have pm3 : (slice dsD P1.2 P3.2).Perm (slice P3.1 P1.2 P3.2) := by
        rw [sliceD3, ← sliceB3]
        exact pmC
      have pm4 : (slice dsD P3.2 stop).Perm (slice P3.1 P3.2 stop) := by
        rw [← sliceC4]
        exact pmD
      have hsub1 : slice P3.1 start P2.2 = (slice P1.1 start P1.2).filter pleft := by
        rw [slice_eq_of_take_eq htk3 hs2b]
        exact hyes2
      have hsub2 : slice P3.1 P2.2 P1.2
          = (slice P1.1 start P1.2).filter (fun e => !pleft e) := by
        rw [slice_eq_of_take_eq htk3 (le_refl _)]
        exact hno2
      have hsub3 : slice P3.1 P1.2 P3.2 = (slice P1.1 P1.2 stop).filter pleft := by
        rw [hyes3]
        congr 1
        exact slice_eq_of_drop_eq hdr2 (le_refl _)
      have hsub4 : slice P3.1 P3.2 stop
          = (slice P1.1 P1.2 stop).filter (fun e => !pleft e) := by
        rw [hno3]
        congr 1
        exact slice_eq_of_drop_eq hdr2 (le_refl _)
      have htop1 : ∀ e ∈ slice P1.1 start P1.2, e ∈ slice data start stop := by
        intro e he
        rw [hyes1] at he
        exact (List.mem_filter.1 he).1
      have htop2 : ∀ e ∈ slice P1.1 P1.2 stop, e ∈ slice data start stop := by
        intro e he
        rw [hno1] at he
        exact (List.mem_filter.1 he).1
      refine ⟨⟨rfl, ?_, ?_⟩, ⟨D1, ?_, ?_, ?_⟩, ?_, ?_⟩
      · rw [hlset]
        omega
      · have b0 : AgreeOn (nodes ++ [node0]) nodes 0 nodes.length := agreeOn_append _ _
        have b1 : AgreeOn nsA nodes 0 nodes.length :=
          agreeOn_trans (agreeOn_mono agA (le_refl _) (by simp)) b0
        have b2 : AgreeOn nsB nodes 0 nodes.length :=
          agreeOn_trans (agreeOn_mono agB (le_refl _) (by omega)) b1
        have b3 : AgreeOn nsC nodes 0 nodes.length :=
          agreeOn_trans (agreeOn_mono agC (le_refl _) (by omega)) b2
        have b4 : AgreeOn nsD nodes 0 nodes.length :=
          agreeOn_trans (agreeOn_mono agD (le_refl _) (by omega)) b3
        refine agreeOn_trans ?_ b4
        rw [hns2]
        exact agreeOn_set_outside _ _ (Or.inr (le_refl _))
      · calc dsD.take start
            = dsC.take start := take_eq_of_take_eq tkD (hs1a.trans hs3a)
          _ = dsB.take start := take_eq_of_take_eq tkC hs1a
          _ = dsA.take start := take_eq_of_take_eq tkB hs2a
          _ = P3.1.take start := tkA
          _ = P2.1.take start := take_eq_of_take_eq htk3 hs1a
          _ = P1.1.take start := htk2
          _ = data.take start := htk1
      · calc dsD.drop stop
            = dsC.drop stop := drD
          _ = dsB.drop stop := drop_eq_of_drop_eq drC hs3b
          _ = dsA.drop stop := drop_eq_of_drop_eq drB hs1b
          _ = P3.1.drop stop := drop_eq_of_drop_eq drA (hs2b.trans hs1b)
          _ = P2.1.drop stop := hdr3
          _ = P1.1.drop stop := drop_eq_of_drop_eq hdr2 hs1b
          _ = data.drop stop := hdr1
      · -- permutation of the worked subrange
        have big : (slice dsD start stop).Perm (slice P3.1 start stop) := by
          rw [← @slice_append_consec Entity dsD start P2.2 stop hs2a (hs2b.trans hs1b),
            ← @slice_append_consec Entity dsD P2.2 P1.2 stop hs2b hs1b,
            ← @slice_append_consec Entity dsD P1.2 P3.2 stop hs3a hs3b,
            ← @slice_append_consec Entity P3.1 start P2.2 stop hs2a (hs2b.trans hs1b),
            ← @slice_append_consec Entity P3.1 P2.2 P1.2 stop hs2b hs1b,
            ← @slice_append_consec Entity P3.1 P1.2 P3.2 stop hs3a hs3b]
          exact (pm1.append (pm2.append (pm3.append pm4)))
        have mid : (slice P3.1 start stop).Perm (slice data start stop) := by
          have a1 : slice P3.1 start P1.2 = slice P2.1 start P1.2 :=
            slice_eq_of_take_eq htk3 (le_refl _)
          have a2 : (slice P2.1 start P1.2).Perm (slice P1.1 start P1.2) := by
            have := partition_data_slice_perm P1.1 start P1.2 pleft hs1a
              (by rw [hlen1]; exact hs1b.trans hsl)
            rw [← hP2d] at this
            exact this
          have a3 : (slice P3.1 P1.2 stop).Perm (slice P2.1 P1.2 stop) := by
            have := partition_data_slice_perm P2.1 P1.2 stop pleft hs1b
              (by rw [hlen2, hlen1]; exact hsl)
            rw [← hP3d] at this
            exact this
          have a4 : slice P2.1 P1.2 stop = slice P1.1 P1.2 stop :=
            slice_eq_of_drop_eq hdr2 (le_refl _)
          have a5 : (slice P1.1 start stop).Perm (slice data start stop) :=
            partition_data_slice_perm data start stop ptop (le_of_lt hss) hsl
          have a12 : (slice P3.1 start P1.2).Perm (slice P1.1 start P1.2) := by
            rw [a1]
            exact a2
          have a34 : (slice P3.1 P1.2 stop).Perm (slice P1.1 P1.2 stop) := by
            refine a3.trans ?_
            rw [a4]
          rw [← @slice_append_consec Entity P3.1 start P1.2 stop hs1a hs1b]
          refine List.Perm.trans ?_ a5
          rw [← @slice_append_consec Entity P1.1 start P1.2 stop hs1a hs1b]
          exact a12.append a34
        exact big.trans mid
      · -- reachability invariants
        have hreach2 : ∀ j d, DepthFrom ns2 nodes.length depth j d →
            (j = nodes.length ∧ d = depth) ∨
            (∃ rj, ref1 = some rj ∧ DepthFrom nsA rj (depth + 1) j d) ∨
            (∃ rj, ref2 = some rj ∧ DepthFrom nsB rj (depth + 1) j d) ∨
            (∃ rj, ref3 = some rj ∧ DepthFrom nsC rj (depth + 1) j d) ∨
            (∃ rj, ref4 = some rj ∧ DepthFrom nsD rj (depth + 1) j d) := by
          intro j d h
          induction h with
          | refl => exact Or.inl ⟨rfl, rfl⟩
          | step hi hn q hq ihh =>
            rcases ihh with ⟨rfl, rfl⟩ | ⟨rj, hr, hdf⟩ | ⟨rj, hr, hdf⟩ | ⟨rj, hr, hdf⟩ |
              ⟨rj, hr, hdf⟩
            · rw [hgetP] at hn
              injection hn with hn
              subst hn
              fin_cases q
              · exact Or.inr (Or.inl ⟨_, hq, DepthFrom.refl⟩)
              · exact Or.inr (Or.inr (Or.inl ⟨_, hq, DepthFrom.refl⟩))
              · exact Or.inr (Or.inr (Or.inr (Or.inl ⟨_, hq, DepthFrom.refl⟩)))
              · exact Or.inr (Or.inr (Or.inr (Or.inr ⟨_, hq, DepthFrom.refl⟩)))
            · obtain ⟨hrj, hrjlt, hre⟩ := someA rj hr
              obtain ⟨hb1, hb2, -, -⟩ := hre _ _ hdf
              have hrj2 : rj = nodes.length + 1 := by simpa using hrj
              have htr : nsA[_]? = some _ := (agA2 _ (by omega) hb2).symm.trans hn
              exact Or.inr (Or.inl ⟨rj, hr, DepthFrom.step hdf htr q hq⟩)
            · obtain ⟨hrj, hrjlt, hre⟩ := someB rj hr
              obtain ⟨hb1, hb2, -, -⟩ := hre _ _ hdf
              have htr : nsB[_]? = some _ := (agB2 _ (by omega) hb2).symm.trans hn
              exact Or.inr (Or.inr (Or.inl ⟨rj, hr, DepthFrom.step hdf htr q hq⟩))
            · obtain ⟨hrj, hrjlt, hre⟩ := someC rj hr
              obtain ⟨hb1, hb2, -, -⟩ := hre _ _ hdf
              have htr : nsC[_]? = some _ := (agC2 _ (by omega) hb2).symm.trans hn
              exact Or.inr (Or.inr (Or.inr (Or.inl ⟨rj, hr, DepthFrom.step hdf htr q hq⟩)))
            · obtain ⟨hrj, hrjlt, hre⟩ := someD rj hr
              obtain ⟨hb1, hb2, -, -⟩ := hre _ _ hdf
              have htr : nsD[_]? = some _ := (agD2 _ (by omega) hb2).symm.trans hn
              exact Or.inr (Or.inr (Or.inr (Or.inr ⟨rj, hr, DepthFrom.step hdf htr q hq⟩)))
        intro j d h
        rcases hreach2 j d h with ⟨rfl, rfl⟩ | ⟨rj, hr, hdf⟩ | ⟨rj, hr, hdf⟩ | ⟨rj, hr, hdf⟩ |
          ⟨rj, hr, hdf⟩
        · refine ⟨le_refl _, by rw [hlset]; omega, hdm, parentN, hgetP, ?_, fun _ => rfl⟩
          intro htrue
          rw [hleaf_false] at htrue
          cases htrue
        · obtain ⟨hrj, hrjlt, hre⟩ := someA rj hr
          obtain ⟨hb1, hb2, hb3, n1, hgn1, hf1, hf2⟩ := hre _ _ hdf
          have hrj2 : rj = nodes.length + 1 := by simpa using hrj
          refine ⟨by omega, by rw [hlset]; omega, hb3, n1, ?_, hf1, hf2⟩
          exact (agA2 j (by omega) hb2).trans hgn1
        · obtain ⟨hrj, hrjlt, hre⟩ := someB rj hr
          obtain ⟨hb1, hb2, hb3, n1, hgn1, hf1, hf2⟩ := hre _ _ hdf
          refine ⟨by omega, by rw [hlset]; omega, hb3, n1, ?_, hf1, hf2⟩
          exact (agB2 j (by omega) hb2).trans hgn1
        · obtain ⟨hrj, hrjlt, hre⟩ := someC rj hr
          obtain ⟨hb1, hb2, hb3, n1, hgn1, hf1, hf2⟩ := hre _ _ hdf
          refine ⟨by omega, by rw [hlset]; omega, hb3, n1, ?_, hf1, hf2⟩
          exact (agC2 j (by omega) hb2).trans hgn1
        · obtain ⟨hrj, hrjlt, hre⟩ := someD rj hr
          obtain ⟨hb1, hb2, hb3, n1, hgn1, hf1, hf2⟩ := hre _ _ hdf
          refine ⟨by omega, by rw [hlset]; omega, hb3, n1, ?_, hf1, hf2⟩
          exact (agD2 j (by omega) hb2).trans hgn1
      · -- the query over the four children
        intro range hins hpass nodesF dataF fuel found hagF hslF hflF
        have hp1 : ∀ e ∈ slice P3.1 start P2.2,
            CheckCollisionPointRec e.position range = true := by
          intro e he
          rw [hsub1] at he
          exact hpass e (htop1 e (List.mem_filter.1 he).1)
        have hp2 : ∀ e ∈ slice dsA P2.2 P1.2,
            CheckCollisionPointRec e.position range = true := by
          intro e he
          rw [sliceA2, hsub2] at he
          exact hpass e (htop1 e (List.mem_filter.1 he).1)
        have hp3 : ∀ e ∈ slice dsB P1.2 P3.2,
            CheckCollisionPointRec e.position range = true := by
          intro e he
          rw [sliceB3, hsub3] at he
          exact hpass e (htop2 e (List.mem_filter.1 he).1)
        have hp4 : ∀ e ∈ slice dsC P3.2 stop,
            CheckCollisionPointRec e.position range = true := by
          intro e he
          rw [sliceC4, hsub4] at he
          exact hpass e (htop2 e (List.mem_filter.1 he).1)
        rw [hlset] at hflF
        cases fuel with
        | zero => omega
        | succ f =>
          have hgF : nodesF[nodes.length]? = some parentN :=
            (hagF nodes.length (le_refl _) (by rw [hlset]; omega)).trans hgetP
          have hcc : CheckCollisionRecs parentN.boundary range = true := by
            show CheckCollisionRecs bound range = true
            exact checkCollisionRecs_of_inside hins
          simp only [query_range_recursive, hgF, hcc, Bool.not_true, Bool.false_eq_true,
            if_false, hleaf_false]
          have hq1 := quA range (inside_tl hins) hp1 nodesF dataF f found
            (by
              intro j hj1 hj2
              have hj1b : nodes.length + 1 ≤ j := by simpa using hj1
              exact (hagF j (by omega) (by rw [hlset]; omega)).trans (agA2 j (by omega) hj2))
            (by
              have e1 : slice dataF start P2.2 = slice dsD start P2.2 :=
                slice_eq_of_slice_eq hslF (le_refl _) (hs2b.trans hs1b)
              rw [e1, sliceD1])
            (by simp; omega)
          rw [hq1]
          have hq2 := quB range (inside_tr hins) hp2 nodesF dataF f
            (found ++ slice dsA start P2.2)
            (fun j hj1 hj2 =>
              (hagF j (by omega) (by rw [hlset]; omega)).trans (agB2 j hj1 hj2))
            (by
              have e1 : slice dataF P2.2 P1.2 = slice dsD P2.2 P1.2 :=
                slice_eq_of_slice_eq hslF hs2a hs1b
              rw [e1, sliceD2])
            (by omega)
          rw [hq2]
          have hq3 := quC range (inside_bl hins) hp3 nodesF dataF f
            (found ++ slice dsA start P2.2 ++ slice dsB P2.2 P1.2)
            (fun j hj1 hj2 =>
              (hagF j (by omega) (by rw [hlset]; omega)).trans (agC2 j hj1 hj2))
            (by
              have e1 : slice dataF P1.2 P3.2 = slice dsD P1.2 P3.2 :=
                slice_eq_of_slice_eq hslF hs1a hs3b
              rw [e1, sliceD3])
            (by omega)
          rw [hq3]
          have hq4 := quD range (inside_br hins) hp4 nodesF dataF f
            (found ++ slice dsA start P2.2 ++ slice dsB P2.2 P1.2 ++ slice dsC P1.2 P3.2)
            (fun j hj1 hj2 =>
              (hagF j (by omega) (by rw [hlset]; omega)).trans (agD2 j hj1 hj2))
            (by
              exact slice_eq_of_slice_eq hslF (hs1a.trans hs3a) (le_refl _))
            (by omega)
          rw [hq4]
          rw [← sliceD1, ← sliceD2, ← sliceD3]
          simp only [List.append_assoc]
          rw [slice_append_consec hs3a hs3b, slice_append_consec hs2b hs1b,
            slice_append_consec hs2a (hs2b.trans hs1b)]

/-! Lifting the build specification to the rebuild entry point. -/

theorem rebuild_fields (t : LinearQuadTree) (objects : List Entity) :
    (rebuild t objects).boundary = t.boundary ∧
    (rebuild t objects).capacity = t.capacity ∧
    (rebuild t objects).max_depth = t.max_depth := by
  rw [rebuild]
  split
  · exact ⟨rfl, rfl, rfl⟩
  · dsimp only
    split
    · exact ⟨rfl, rfl, rfl⟩
    · exact ⟨rfl, rfl, rfl⟩

theorem rebuild_eq (t : LinearQuadTree) (objects : List Entity)
    (hne : objects.filter (fun obj => CheckCollisionPointRec obj.position t.boundary) ≠ []) :
    rebuild t objects = { t with
      nodes := (build_tree t.capacity t.max_depth []
        (objects.filter fun obj => CheckCollisionPointRec obj.position t.boundary) 0
        (objects.filter fun obj => CheckCollisionPointRec obj.position t.boundary).length
        t.boundary 0).1,
      data := (build_tree t.capacity t.max_depth []
        (objects.filter fun obj => CheckCollisionPointRec obj.position t.boundary) 0
        (objects.filter fun obj => CheckCollisionPointRec obj.position t.boundary).length
        t.boundary 0).2.1 } := by
  have h1 : objects.isEmpty = false := by
    cases objects with
    | nil => simp at hne
    | cons a l => rfl
  have h2 : (objects.filter fun obj =>
      CheckCollisionPointRec obj.position t.boundary).isEmpty = false := by
    cases hFc : objects.filter fun obj => CheckCollisionPointRec obj.position t.boundary with
    | nil => exact absurd hFc hne
    | cons a l => rfl
  simp only [rebuild, h1, h2, Bool.false_eq_true, if_false]

theorem rebuild_spec (t : LinearQuadTree) (objects : List Entity)
    (hne : objects.filter (fun obj => CheckCollisionPointRec obj.position t.boundary) ≠ []) :
    BuildSpec t.capacity t.max_depth []
      (objects.filter fun obj => CheckCollisionPointRec obj.position t.boundary) 0
      (objects.filter fun obj => CheckCollisionPointRec obj.position t.boundary).length
      t.boundary 0
      (rebuild t objects).nodes (rebuild t objects).data 0 := by
  set F := objects.filter fun obj => CheckCollisionPointRec obj.position t.boundary with hF
  have hpos : 0 < F.length := List.length_pos.2 hne
  have hgas : build_tree_gas t.capacity t.max_depth (t.max_depth + 1) [] F 0 F.length
      t.boundary 0
      = some ((build_tree t.capacity t.max_depth [] F 0 F.length t.boundary 0).1,
              (build_tree t.capacity t.max_depth [] F 0 F.length t.boundary 0).2.1,
              (build_tree t.capacity t.max_depth [] F 0 F.length t.boundary 0).2.2) :=
    build_tree_gas_sound (t.max_depth + 1) t.capacity t.max_depth [] F 0 F.length
      t.boundary 0 (by omega)
  have hspec := build_gas_spec (t.max_depth + 1) t.capacity t.max_depth [] F 0 F.length
    t.boundary 0 _ _ _ hgas hpos (le_refl _) (Nat.zero_le _)
  have hidx : (build_tree t.capacity t.max_depth [] F 0 F.length t.boundary 0).2.2 = 0 := by
    simpa using hspec.1.1
  rw [hidx] at hspec
  rw [rebuild_eq t objects hne]
  simp only
  rw [← hF]
  exact hspec

theorem rebuild_congr (t1 t2 : LinearQuadTree) (E : List Entity)
    (hb : t1.boundary = t2.boundary) (hc : t1.capacity = t2.capacity)
    (hm : t1.max_depth = t2.max_depth) :
    (rebuild t1 E).nodes = (rebuild t2 E).nodes ∧
    (rebuild t1 E).data = (rebuild t2 E).data := by
  by_cases hE : E.isEmpty
  · constructor <;> simp [rebuild, hE]
  · by_cases hF : (E.filter fun obj => CheckCollisionPointRec obj.position t2.boundary).isEmpty
    · constructor <;> simp [rebuild, hb, hc, hm, hE, hF]
    · constructor <;> simp [rebuild, hb, hc, hm, hE, hF]

theorem rebuild_data_perm (t : LinearQuadTree) (objects : List Entity) :
    (rebuild t objects).data.Perm
      (objects.filter fun obj => CheckCollisionPointRec obj.position t.boundary) := by
  by_cases hne : objects.filter (fun obj => CheckCollisionPointRec obj.position t.boundary) = []
  · rw [hne]
    have h2 : (objects.filter fun obj =>
        CheckCollisionPointRec obj.position t.boundary).isEmpty = true := by
      rw [hne]
      rfl
    rw [rebuild]
    split
    · exact List.Perm.refl _
    · dsimp only
      rw [if_pos h2]
  · obtain ⟨-, ⟨hdlen, -, -, hperm⟩, -, -⟩ := rebuild_spec t objects hne
    have h1 : slice (rebuild t objects).data 0
        (objects.filter fun obj => CheckCollisionPointRec obj.position t.boundary).length
        = (rebuild t objects).data := by
      rw [← hdlen]
      exact slice_whole _
    have h2 : slice (objects.filter fun obj => CheckCollisionPointRec obj.position t.boundary) 0
        (objects.filter fun obj => CheckCollisionPointRec obj.position t.boundary).length
        = objects.filter fun obj => CheckCollisionPointRec obj.position t.boundary :=
      slice_whole _
    rw [h1, h2] at hperm
    exact hperm

end LinearQuadTree

/-! Claim theorems. -/

namespace LinearQuadTree

/-- Claim C2, counterexample. The claim states that during partitioning an
entity whose position.x equals the center x of the node is classified into a
left quadrant. In the source the left predicate is position.x < center.x
(LinearQuadTree.hpp line 85, SIMDQuadTree.hpp line 147), so the tie fails the
predicate and goes right. Concretely: two entities at (50, 10) and (10, 10)
in the boundary rectangle (0, 0, 100, 100) with capacity 1; the center is
(50, 50), the tie entity id 0 has x = 50 = center.x, and after the build it
sits in the subrange [1, 2) claimed by the TopRight child (node 2, reached
through the tr reference of the root), while the TopLeft child holds only
entity id 1 — the tie entity is classified right, not left. -/
theorem claim_C2_counterexample :
    ((0 : ℚ) + 100 * (1/2) = 50) ∧
    ((build_tree_gas 1 5 6 []
        [⟨0, ⟨50, 10⟩⟩, ⟨1, ⟨10, 10⟩⟩] 0 2 ⟨0, 0, 100, 100⟩ 0).map
      fun r => (slice r.2.1 0 1, slice r.2.1 1 2, (r.1[0]?).map Node.tr,
        (r.1[2]?).map fun n => (n.data_begin, n.data_count)))
      = some ([⟨1, ⟨10, 10⟩⟩], [⟨0, ⟨50, 10⟩⟩], some (some 2), some (1, 1)) := by
  constructor
  · norm_num
  · with_unfolding_all rfl

/-- Claim C2, amended. During every partitioning step of the build, an
entity whose position.x equals the center x is classified into a right
quadrant and an entity whose position.y equals the center y into a bottom
quadrant (the source predicates are strict less-than); under this
consistent policy every entity of the partitioned range ends up in exactly
one child subrange — the four subranges are exactly the filtered quadrant
contents and together they are a permutation of the range, so none is
duplicated and none is dropped. -/
theorem claim_C2_amended (data : List Entity) (start stop : ℕ) (cx cy : ℚ)
    (d1 : List Entity) (sy : ℕ) (d2 : List Entity) (sxl : ℕ)
    (d3 : List Entity) (sxr : ℕ)
    (h1 : start ≤ stop) (h2 : stop ≤ data.length)
    (hp1 : partition_data data start stop (fun p => decide (p.position.y < cy)) = (d1, sy))
    (hp2 : partition_data d1 start sy (fun p => decide (p.position.x < cx)) = (d2, sxl))
    (hp3 : partition_data d2 sy stop (fun p => decide (p.position.x < cx)) = (d3, sxr)) :
    TieBreakSpec data start stop cx cy d3 sy sxl sxr := by
  have spec1 := partition_data_spec data start stop
    (fun p => decide (p.position.y < cy)) h1 h2
  rw [hp1] at spec1
  dsimp only at spec1
  obtain ⟨hlen1, hs1a, hs1b, htk1, hdr1, hyes1, hno1⟩ := spec1
  have spec2 := partition_data_spec d1 start sy
    (fun p => decide (p.position.x < cx)) hs1a (by rw [hlen1]; exact hs1b.trans h2)
  rw [hp2] at spec2
  dsimp only at spec2
  obtain ⟨hlen2, hs2a, hs2b, htk2, hdr2, hyes2, hno2⟩ := spec2
  have spec3 := partition_data_spec d2 sy stop
    (fun p => decide (p.position.x < cx)) hs1b (by rw [hlen2, hlen1]; exact h2)
  rw [hp3] at spec3
  dsimp only at spec3
  obtain ⟨hlen3, hs3a, hs3b, htk3, hdr3, hyes3, hno3⟩ := spec3
  have e1 : slice d3 start sxl
      = ((slice data start stop).filter fun p => decide (p.position.y < cy)).filter
        (fun p => decide (p.position.x < cx)) := by
    rw [slice_eq_of_take_eq htk3 hs2b, hyes2, hyes1]
  have e2 : slice d3 sxl sy
      = ((slice data start stop).filter fun p => decide (p.position.y < cy)).filter
        (fun p => !decide (p.position.x < cx)) := by
    rw [slice_eq_of_take_eq htk3 (le_refl _), hno2, hyes1]
  have e3 : slice d3 sy sxr
      = ((slice data start stop).filter fun p => !decide (p.position.y < cy)).filter
        (fun p => decide (p.position.x < cx)) := by
    rw [hyes3, slice_eq_of_drop_eq hdr2 (le_refl _), hno1]
  have e4 : slice d3 sxr stop
      = ((slice data start stop).filter fun p => !decide (p.position.y < cy)).filter
        (fun p => !decide (p.position.x < cx)) := by
    rw [hno3, slice_eq_of_drop_eq hdr2 (le_refl _), hno1]
  have hperm : (slice d3 start sxl ++ slice d3 sxl sy ++ slice d3 sy sxr ++
      slice d3 sxr stop).Perm (slice data start stop) := by
    rw [e1, e2, e3, e4, List.append_assoc, List.append_assoc,
      ← List.append_assoc (((slice data start stop).filter fun p =>
        decide (p.position.y < cy)).filter fun p => decide (p.position.x < cx))]
    refine List.Perm.trans (List.Perm.append ?_ ?_)
      ((slice data start stop).filter_append_perm fun p => decide (p.position.y < cy))
    · exact List.filter_append_perm _ _
    · exact List.filter_append_perm _ _
  refine ⟨⟨e1, e2, e3, e4⟩, hperm, ?_, ?_⟩
  · intro e he hx
    have hxf : decide (e.position.x < cx) = false := by
      simp [hx]
    have m1 : e ∉ slice d3 start sxl := by
      intro hmem
      rw [e1] at hmem
      have := (List.mem_filter.1 hmem).2
      rw [hxf] at this
      cases this
    have m3 : e ∉ slice d3 sy sxr := by
      intro hmem
      rw [e3] at hmem
      have := (List.mem_filter.1 hmem).2
      rw [hxf] at this
      cases this
    refine ⟨m1, m3, ?_⟩
    have hin : e ∈ slice d3 start sxl ++ slice d3 sxl sy ++ slice d3 sy sxr ++
        slice d3 sxr stop := hperm.mem_iff.2 he
    rcases List.mem_append.1 hin with h' | h4
    · rcases List.mem_append.1 h' with h'' | h3
      · rcases List.mem_append.1 h'' with hm1 | h2'
        · exact absurd hm1 m1
        · exact Or.inl h2'
      · exact absurd h3 m3
    · exact Or.inr h4
  · intro e he hy
    have hyf : decide (e.position.y < cy) = false := by
      simp [hy]
    have m1 : e ∉ slice d3 start sxl := by
      intro hmem
      rw [e1] at hmem
      have := (List.mem_filter.1 (List.mem_filter.1 hmem).1).2
      rw [hyf] at this
      cases this
    have m2 : e ∉ slice d3 sxl sy := by
      intro hmem
      rw [e2] at hmem
      have := (List.mem_filter.1 (List.mem_filter.1 hmem).1).2
      rw [hyf] at this
      cases this
    refine ⟨m1, m2, ?_⟩
    have hin : e ∈ slice d3 start sxl ++ slice d3 sxl sy ++ slice d3 sy sxr ++
        slice d3 sxr stop := hperm.mem_iff.2 he
    rcases List.mem_append.1 hin with h' | h4
    · rcases List.mem_append.1 h' with h'' | h3
      · rcases List.mem_append.1 h'' with hm1 | h2'
        · exact absurd hm1 m1
        · exact absurd h2' m2
      · exact Or.inl h3
    · exact Or.inr h4

/-- Claim C1: containment round-trip. For every entity set E and every tree
whose boundary contains every position of E (the formal reading of
containing the bounding box of E), after rebuild(E) the query over the
boundary rectangle returns exactly the entities of E as a multiset —
every entity appears, no other entity appears, and multiplicities are
preserved, so a duplicate-free E yields a duplicate-free result; order is
not part of the statement. -/
theorem claim_C1 (t : LinearQuadTree) (E : List Entity)
    (hB : ∀ e ∈ E, CheckCollisionPointRec e.position t.boundary = true) :
    (query_range (rebuild t E) t.boundary []).Perm E ∧
    (E.Nodup → (query_range (rebuild t E) t.boundary []).Nodup) := by
  have main : (query_range (rebuild t E) t.boundary []).Perm E := by
    by_cases hE : E = []
    · subst hE
      have h2 : query_range (rebuild t []) t.boundary [] = [] := rfl
      rw [h2]
    · have hfe : E.filter (fun obj => CheckCollisionPointRec obj.position t.boundary) = E :=
        List.filter_eq_self.2 fun a ha => hB a ha
      have hne : E.filter (fun obj => CheckCollisionPointRec obj.position t.boundary) ≠ [] := by
        rw [hfe]
        exact hE
      have hspec := rebuild_spec t E hne
      rw [hfe] at hspec
      obtain ⟨-, ⟨hdlen, -, -, -⟩, -, hquery⟩ := hspec
      obtain ⟨e0, he0⟩ := List.exists_mem_of_ne_nil E hE
      have hb0 := hB e0 he0
      simp only [CheckCollisionPointRec, Bool.and_eq_true, decide_eq_true_eq] at hb0
      obtain ⟨⟨⟨hb1, hb2⟩, hb3⟩, hb4⟩ := hb0
      have hins : Inside t.boundary t.boundary := inside_self (by linarith) (by linarith)
      have hpass : ∀ e ∈ slice E 0 E.length,
          CheckCollisionPointRec e.position t.boundary = true := by
        rw [slice_whole]
        exact hB
      have hq := hquery t.boundary hins hpass (rebuild t E).nodes (rebuild t E).data
        ((rebuild t E).nodes.length + 1) [] (agreeOn_refl _ _ _) rfl (by omega)
      rw [query_range, hq, List.nil_append]
      have hwhole : slice (rebuild t E).data 0 E.length = (rebuild t E).data := by
        rw [← hdlen]
        exact slice_whole _
      rw [hwhole]
      have hp := rebuild_data_perm t E
      rw [hfe] at hp
      exact hp
  exact ⟨main, fun hnd => main.nodup_iff.2 hnd⟩

/-- Claim C1, witness: a tree over the boundary (0, 0, 100, 100) with
capacity 1, rebuilt from two in-bounds entities, answers the boundary query
with exactly those two entities. -/
theorem claim_C1_witness :
    (query_range
        (rebuild ⟨[], [], ⟨0, 0, 100, 100⟩, 1, 5⟩ [⟨0, ⟨1, 1⟩⟩, ⟨1, ⟨99, 1⟩⟩])
        ⟨0, 0, 100, 100⟩ []).Perm [⟨0, ⟨1, 1⟩⟩, ⟨1, ⟨99, 1⟩⟩] ∧
    (([⟨0, ⟨1, 1⟩⟩, ⟨1, ⟨99, 1⟩⟩] : List Entity).Nodup →
      (query_range
        (rebuild ⟨[], [], ⟨0, 0, 100, 100⟩, 1, 5⟩ [⟨0, ⟨1, 1⟩⟩, ⟨1, ⟨99, 1⟩⟩])
        ⟨0, 0, 100, 100⟩ []).Nodup) :=
  claim_C1 ⟨[], [], ⟨0, 0, 100, 100⟩, 1, 5⟩ [⟨0, ⟨1, 1⟩⟩, ⟨1, ⟨99, 1⟩⟩]
    (by with_unfolding_all decide)

/-- Claim C3: capacity and leaf invariant. In every tree produced by a
rebuild, every node reachable from the root satisfies: if it is a leaf then
its data count is at most the capacity or its depth equals the depth cap,
and if it is internal then its own data count is zero. -/
theorem claim_C3 (t : LinearQuadTree) (E : List Entity) (j d : ℕ) (n : Node)
    (hdf : DepthFrom (rebuild t E).nodes 0 0 j d)
    (hget : (rebuild t E).nodes[j]? = some n) :
    (n.is_leaf = true → n.data_count ≤ t.capacity ∨ d = t.max_depth) ∧
    (n.is_leaf = false → n.data_count = 0) := by
  by_cases hne : E.filter (fun obj => CheckCollisionPointRec obj.position t.boundary) = []
  · have h2 : (E.filter fun obj =>
        CheckCollisionPointRec obj.position t.boundary).isEmpty = true := by
      rw [hne]
      rfl
    have hnil : (rebuild t E).nodes = [] := by
      rw [rebuild]
      split
      · rfl
      · dsimp only
        rw [if_pos h2]
    rw [hnil] at hdf hget
    obtain ⟨rfl, -⟩ := depthFrom_nil hdf
    simp at hget
  · obtain ⟨-, -, hreach, -⟩ := rebuild_spec t E hne
    obtain ⟨-, -, hdle, n2, hget2, hf1, hf2⟩ := hreach j d hdf
    rw [hget] at hget2
    injection hget2 with hget2
    subst hget2
    refine ⟨?_, hf2⟩
    intro hleaf
    rcases hf1 hleaf with h | h
    · exact Or.inl h
    · exact Or.inr (le_antisymm hdle h)

/-- Claim C3, witness: one in-bounds entity with capacity 8 produces a
single-leaf tree whose root holds one entity at depth 0. -/
theorem claim_C3_witness :
    (rebuild ⟨[], [], ⟨0, 0, 100, 100⟩, 8, 5⟩ [⟨0, ⟨1, 1⟩⟩]).nodes[0]?
      = some ⟨⟨0, 0, 100, 100⟩, 0, 1, none, none, none, none⟩ ∧
    ((Node.is_leaf ⟨⟨0, 0, 100, 100⟩, 0, 1, none, none, none, none⟩ = true →
        Node.data_count ⟨⟨0, 0, 100, 100⟩, 0, 1, none, none, none, none⟩ ≤
          LinearQuadTree.capacity ⟨[], [], ⟨0, 0, 100, 100⟩, 8, 5⟩ ∨
        0 = LinearQuadTree.max_depth ⟨[], [], ⟨0, 0, 100, 100⟩, 8, 5⟩) ∧
      (Node.is_leaf ⟨⟨0, 0, 100, 100⟩, 0, 1, none, none, none, none⟩ = false →
        Node.data_count ⟨⟨0, 0, 100, 100⟩, 0, 1, none, none, none, none⟩ = 0)) := by
  have hg : build_tree_gas 8 5 6 [] [⟨0, ⟨1, 1⟩⟩] 0 1 ⟨0, 0, 100, 100⟩ 0
      = some ([⟨⟨0, 0, 100, 100⟩, 0, 1, none, none, none, none⟩], [⟨0, ⟨1, 1⟩⟩], 0) := by
    with_unfolding_all rfl
  have hs := build_tree_gas_sound 6 8 5 [] [⟨0, ⟨1, 1⟩⟩] 0 1 ⟨0, 0, 100, 100⟩ 0 (by omega)
  have hbt : build_tree 8 5 [] [⟨0, ⟨1, 1⟩⟩] 0 1 ⟨0, 0, 100, 100⟩ 0
      = ([⟨⟨0, 0, 100, 100⟩, 0, 1, none, none, none, none⟩], [⟨0, ⟨1, 1⟩⟩], 0) :=
    (Option.some.inj (hg.symm.trans hs)).symm
  have hfe : ([⟨0, ⟨1, 1⟩⟩] : List Entity).filter
      (fun obj => CheckCollisionPointRec obj.position
        (LinearQuadTree.boundary ⟨[], [], ⟨0, 0, 100, 100⟩, 8, 5⟩)) = [⟨0, ⟨1, 1⟩⟩] := by
    with_unfolding_all decide
  have hn : (rebuild ⟨[], [], ⟨0, 0, 100, 100⟩, 8, 5⟩ [⟨0, ⟨1, 1⟩⟩]).nodes
      = [⟨⟨0, 0, 100, 100⟩, 0, 1, none, none, none, none⟩] := by
    rw [rebuild_eq _ _ (by rw [hfe]; exact List.cons_ne_nil _ _)]
    dsimp only
    rw [hfe]
    simp only [List.length_singleton]
    rw [hbt]
  have hget : (rebuild ⟨[], [], ⟨0, 0, 100, 100⟩, 8, 5⟩ [⟨0, ⟨1, 1⟩⟩]).nodes[0]?
      = some ⟨⟨0, 0, 100, 100⟩, 0, 1, none, none, none, none⟩ := by
    rw [hn]
    rfl
  exact ⟨hget, claim_C3 ⟨[], [], ⟨0, 0, 100, 100⟩, 8, 5⟩ [⟨0, ⟨1, 1⟩⟩] 0 0
    ⟨⟨0, 0, 100, 100⟩, 0, 1, none, none, none, none⟩ DepthFrom.refl hget⟩

/-- Claim C4: builder termination. For every boundary rectangle, capacity,
depth-cap configuration and every finite, arbitrarily degenerate entity
range, the instrumented builder run with any recursion allowance exceeding
max_depth - depth completes and agrees with the total builder: the depth
cap always overrides the capacity condition, so the recursion depth never
exceeds max_depth - depth and the build terminates regardless of entity
clustering. -/
theorem claim_C4 (gas capacity max_depth : ℕ) (nodes : List Node) (data : List Entity)
    (start stop : ℕ) (bound : Rectangle) (depth : ℕ)
    (hgas : max_depth - depth < gas) :
    build_tree_gas capacity max_depth gas nodes data start stop bound depth
      = some (build_tree capacity max_depth nodes data start stop bound depth) :=
  build_tree_gas_sound gas capacity max_depth nodes data start stop bound depth hgas

/-- Claim C4, witness: two entities at the identical position (50, 50) with
capacity 1 — a range that capacity alone can never split — still build with
the recursion allowance max_depth + 1 = 3. -/
theorem claim_C4_witness :
    2 - 0 < 3 ∧
    build_tree_gas 1 2 3 [] [⟨0, ⟨50, 50⟩⟩, ⟨1, ⟨50, 50⟩⟩] 0 2 ⟨0, 0, 100, 100⟩ 0
      = some (build_tree 1 2 [] [⟨0, ⟨50, 50⟩⟩, ⟨1, ⟨50, 50⟩⟩] 0 2 ⟨0, 0, 100, 100⟩ 0) :=
  ⟨by omega, claim_C4 3 1 2 [] [⟨0, ⟨50, 50⟩⟩, ⟨1, ⟨50, 50⟩⟩] 0 2 ⟨0, 0, 100, 100⟩ 0
    (by omega)⟩

/-- Claim C6, counterexample. The claim states that calling
rebuild_and_fit_to with an empty entity set is detected by a precondition
assertion and that no path returns normally with a usable tree. The
LinearQuadTree source (lines 187-190) contains no assertion and no failure
path: on the empty set it returns normally, and the returned tree is a
valid empty index. Concretely, a tree over (0, 0, 100, 100) refit to the
empty set comes back with the degenerate boundary and empty stores. -/
theorem claim_C6_counterexample :
    rebuild_and_fit_to ⟨[], [], ⟨0, 0, 100, 100⟩, 8, 5⟩ []
      = ⟨[], [], ⟨0, 0, 0, 0⟩, 8, 5⟩ := rfl

/-- Claim C6, amended. In the LinearQuadTree, calling rebuild_and_fit_to
with an empty entity set is not detected: it returns normally, setting the
boundary to the degenerate all-zero rectangle computed for the empty set
and clearing the node and data stores, after which every query_range call
returns its accumulator unchanged. (The pointer-owned QuadTree variant, by
contrast, guards this entry point with an assertion in its own source.) -/
theorem claim_C6_amended (t : LinearQuadTree) :
    rebuild_and_fit_to t []
      = { t with nodes := [], data := [], boundary := ⟨0, 0, 0, 0⟩ } ∧
    ∀ (range : Rectangle) (found : List Entity),
      query_range (rebuild_and_fit_to t []) range found = found := by
  exact ⟨rfl, fun range found => rfl⟩

/-- Claim C7: out-of-bounds exclusion. For an entity whose position fails
the closed boundary containment test at rebuild time, the rebuild completes
(the function is total), the entity is not admitted into the data store,
and no query_range call with any query rectangle and any accumulator
returns it — it can only appear in the output if it was already in the
accumulator. -/
theorem claim_C7 (t : LinearQuadTree) (E : List Entity) (e : Entity)
    (range : Rectangle) (found : List Entity)
    (hout : CheckCollisionPointRec e.position t.boundary = false) :
    e ∉ (rebuild t E).data ∧
    (e ∈ query_range (rebuild t E) range found → e ∈ found) := by
  have hnotin : e ∉ (rebuild t E).data := by
    intro hmem
    have hperm := rebuild_data_perm t E
    have hmem2 := hperm.mem_iff.1 hmem
    have hpred := (List.mem_filter.1 hmem2).2
    rw [hout] at hpred
    cases hpred
  refine ⟨hnotin, ?_⟩
  intro hq
  rcases query_range_recursive_sound (rebuild t E).nodes (rebuild t E).data _ _ _ _ _ hq
    with h | h
  · exact h
  · exact absurd h hnotin

/-- Claim C7, witness: an entity at (200, 200), strictly outside the
boundary (0, 0, 100, 100), is not admitted by the rebuild and is not
returned by a query over a rectangle that covers its position. -/
theorem claim_C7_witness :
    CheckCollisionPointRec
      (Entity.position ⟨0, ⟨200, 200⟩⟩)
      (LinearQuadTree.boundary ⟨[], [], ⟨0, 0, 100, 100⟩, 8, 5⟩) = false ∧
    ((⟨0, ⟨200, 200⟩⟩ : Entity) ∉
      (rebuild ⟨[], [], ⟨0, 0, 100, 100⟩, 8, 5⟩ [⟨0, ⟨200, 200⟩⟩]).data ∧
    ((⟨0, ⟨200, 200⟩⟩ : Entity) ∈
        query_range (rebuild ⟨[], [], ⟨0, 0, 100, 100⟩, 8, 5⟩ [⟨0, ⟨200, 200⟩⟩])
          ⟨0, 0, 300, 300⟩ [] →
      (⟨0, ⟨200, 200⟩⟩ : Entity) ∈ ([] : List Entity))) :=
  ⟨by with_unfolding_all decide,
    claim_C7 ⟨[], [], ⟨0, 0, 100, 100⟩, 8, 5⟩ [⟨0, ⟨200, 200⟩⟩] ⟨0, ⟨200, 200⟩⟩
      ⟨0, 0, 300, 300⟩ [] (by with_unfolding_all decide)⟩

/-- Claim C8: idempotent rebuild. Rebuilding twice in succession with the
same entity set yields literally the same query result as rebuilding once,
for every query rectangle and accumulator: the rebuild discards all prior
node and data state and depends only on the boundary, capacity, depth cap
and the entity snapshot, all of which a rebuild leaves unchanged. -/
theorem claim_C8 (t : LinearQuadTree) (E : List Entity) (range : Rectangle)
    (found : List Entity) :
    query_range (rebuild (rebuild t E) E) range found
      = query_range (rebuild t E) range found := by
  obtain ⟨hb, hc, hm⟩ := rebuild_fields t E
  obtain ⟨hn, hd⟩ := rebuild_congr (rebuild t E) t E hb hc hm
  rw [query_range, query_range, hn, hd]

/-- Claim C2, witness for the amended theorem: the concrete partitioning of
the two entities of the counterexample satisfies the tie-break
specification. -/
theorem claim_C2_witness :
    TieBreakSpec [⟨0, ⟨50, 10⟩⟩, ⟨1, ⟨10, 10⟩⟩] 0 2 50 50
      [⟨1, ⟨10, 10⟩⟩, ⟨0, ⟨50, 10⟩⟩] 2 1 2 :=
  claim_C2_amended [⟨0, ⟨50, 10⟩⟩, ⟨1, ⟨10, 10⟩⟩] 0 2 50 50
    [⟨0, ⟨50, 10⟩⟩, ⟨1, ⟨10, 10⟩⟩] 2 [⟨1, ⟨10, 10⟩⟩, ⟨0, ⟨50, 10⟩⟩] 1
    [⟨1, ⟨10, 10⟩⟩, ⟨0, ⟨50, 10⟩⟩] 2
    (by decide) (by decide) (by decide) (by decide) (by decide)

end LinearQuadTree

namespace SIMDQuadTree

theorem movemask_eq_fifteen (b : B32x4) :
    (movemask_ps b == 15) = (b.e0 && b.e1 && b.e2 && b.e3) := by
  obtain ⟨b0, b1, b2, b3⟩ := b
  cases b0 <;> cases b1 <;> cases b2 <;> cases b3 <;> rfl

/-- The second variant of the vectorized overlap test (src/unnamed/part_003)
is equivalent to the scalar closed-interval test on every input: its
shuffles broadcast the min and max pairs so that the four compared lanes
are exactly the four scalar comparisons, duplicated once. -/
theorem checkCollisionRectsSIMDv2_eq_scalar (r1 r2 : SIMDRect) :
    CheckCollisionRectsSIMDv2 r1 r2 = CheckCollisionRectsScalar r1 r2 := by
  show (movemask_ps
      ⟨decide (r1.minX ≤ r2.maxX) && decide (r1.maxX ≥ r2.minX),
        decide (r1.minY ≤ r2.maxY) && decide (r1.maxY ≥ r2.minY),
        decide (r1.minX ≤ r2.maxX) && decide (r1.maxX ≥ r2.minX),
        decide (r1.minY ≤ r2.maxY) && decide (r1.maxY ≥ r2.minY)⟩ == 15)
    = (decide (r1.minX ≤ r2.maxX) && decide (r1.maxX ≥ r2.minX) &&
        decide (r1.minY ≤ r2.maxY) && decide (r1.maxY ≥ r2.minY))
  rw [movemask_eq_fifteen]
  generalize decide (r1.minX ≤ r2.maxX) = A
  generalize decide (r1.minY ≤ r2.maxY) = B
  generalize decide (r1.maxX ≥ r2.minX) = C
  generalize decide (r1.maxY ≥ r2.minY) = D
  cases A <;> cases B <;> cases C <;> cases D <;> rfl

/-- Claim C5: the vectorized rectangle-overlap test of SIMDQuadTree.hpp is
claimed bit-identical to the scalar closed-interval test for all finite
inputs. It is not: its shuffles compare the max corner of the first
rectangle against the max corner of the second in lanes 0 and 1, so it can
only return true when the max corners coincide on both axes. At the
failing input r1 = [0,1]x[0,1], r2 = [0,2]x[0,2] (Rectangle{0,0,1,1} and
Rectangle{0,0,2,2}), the scalar test returns true, the shipped vectorized
path returns false; the corrected variant of src/unnamed/part_003 agrees
with the scalar test here, matching the in-code comments and the spec. -/
theorem claim_C5 :
    CheckCollisionRectsScalar ⟨0, 0, 1, 1⟩ ⟨0, 0, 2, 2⟩ = true ∧
    CheckCollisionRectsSIMD ⟨0, 0, 1, 1⟩ ⟨0, 0, 2, 2⟩ = false ∧
    CheckCollisionRectsSIMDv2 ⟨0, 0, 1, 1⟩ ⟨0, 0, 2, 2⟩ = true := by
  decide

/-- Claim C9: the SIMDQuadTree constructor precondition admits capacity = 1
(the assertion only requires capacity > 0), yet the node-reservation
estimate of rebuild divides by capacity / 2, which is zero for capacity 1 —
an unguarded integer division by zero, undefined behaviour in the source,
modelled as none. For any capacity of at least 2 the divisor is positive
and the estimate is defined; at the failing input the estimate for 100
admitted entities with capacity 1 is undefined while capacity 2 yields
100. -/
theorem claim_C9 :
    0 < 1 ∧
    rebuild_reserve_estimate 100 1 = none ∧
    rebuild_reserve_estimate 100 2 = some 100 := by
  decide

end SIMDQuadTree

set_option maxHeartbeats 1600000 in
theorem quadTree_query_frame : ∀ (q : QuadTree) (range : Rectangle)
    (found1 found2 : List Entity),
    q.query_range range (found1 ++ found2) = found1 ++ q.query_range range found2
  | QuadTree.mk b objs none => by
    intro range f1 f2
    rw [QuadTree.query_range, QuadTree.query_range]
    by_cases hc : CheckCollisionRecs b range
    · simp only [hc, Bool.not_true, Bool.false_eq_true, if_false, List.append_assoc]
    · simp only [Bool.not_eq_true] at hc
      simp only [hc, Bool.not_false, if_true]
  | QuadTree.mk b objs (some (nw, ne, sw, se)) => by
    intro range f1 f2
    rw [QuadTree.query_range, QuadTree.query_range]
    by_cases hc : CheckCollisionRecs b range
    · simp only [hc, Bool.not_true, Bool.false_eq_true, if_false, List.append_assoc]
      rw [quadTree_query_frame nw, quadTree_query_frame ne, quadTree_query_frame sw,
        quadTree_query_frame se]
    · simp only [Bool.not_eq_true] at hc
      simp only [hc, Bool.not_false, if_true]

/-- Claim C10: query_range only appends to its caller-supplied output
vector. For the flat LinearQuadTree and for the pointer-owned QuadTree
alike, with any tree state, any query rectangle and any prior content of
the found vector, the elements that were in found before the call are
unchanged and form the front of the result, with the matches of the query
appended after them; the vector is never cleared or overwritten. -/
theorem claim_C10 :
    (∀ (t : LinearQuadTree) (range : Rectangle) (found : List Entity),
      LinearQuadTree.query_range t range found
        = found ++ LinearQuadTree.query_range t range []) ∧
    (∀ (q : QuadTree) (range : Rectangle) (found : List Entity),
      q.query_range range found = found ++ q.query_range range []) := by
  constructor
  · intro t range found
    have h := LinearQuadTree.query_range_recursive_frame t.nodes t.data
      (t.nodes.length + 1) (some 0) range found []
    rw [List.append_nil] at h
    exact h
  · intro q range found
    have h := quadTree_query_frame q range found []
    rw [List.append_nil] at h
    exact h

end Boids
